import Mathlib

/-!
Verification development for the DMS repository (a desktop file-management
system: folder scanner plus SQLite-backed catalog store).

The embedding translates `src/db_manager.py`, `src/file_scanner.py` and the
`parse_revision` utility of `src/sql_server.py` into Lean.  The store is an
SQLite database accessed through the Python `sqlite3` module; its relevant
dynamic-typing behaviour is modelled explicitly:

* Python values bound as SQL parameters are adapted: `datetime` objects are
  stored as ISO text (`YYYY-MM-DD HH:MM:SS[.ffffff]`, the default `sqlite3`
  datetime adapter); `str` and `int` pass through; `None` becomes SQL NULL.
  Reading a DATETIME column therefore yields a plain string back in Python.
* Python comparisons between values of unrelated types (`datetime > str`)
  raise `TypeError`; this is modelled by `Option`-valued comparison.
-/

/-- A Python `datetime.datetime` value (naive, microsecond precision). -/
structure PyDatetime where
  year : Nat
  month : Nat
  day : Nat
  hour : Nat
  minute : Nat
  second : Nat
  micro : Nat
  deriving DecidableEq, Repr

/-- A dynamically typed value as it flows between Python and SQLite:
NULL/None, integer, text, or a Python datetime object (only ever seen on the
Python side; the adapter turns it into text before storage). -/
inductive PyVal where
  | vNone : PyVal
  | vInt (n : Int) : PyVal
  | vStr (s : String) : PyVal
  | vDt (d : PyDatetime) : PyVal
  deriving DecidableEq, Repr

/-- Left-pad the decimal representation of `n` with zeros to width `w`. -/
def padZ (w n : Nat) : String :=
  String.mk (List.replicate (w - (toString n).length) '0') ++ toString n

/-- ISO text form of a datetime as produced by `datetime.isoformat(sep=' ')`,
which is the default `sqlite3` datetime adapter: seconds precision, with a
`.ffffff` suffix only when microseconds are nonzero. -/
def isoDt (d : PyDatetime) : String :=
  padZ 4 d.year ++ "-" ++ padZ 2 d.month ++ "-" ++ padZ 2 d.day ++ " " ++
    padZ 2 d.hour ++ ":" ++ padZ 2 d.minute ++ ":" ++ padZ 2 d.second ++
    (if d.micro == 0 then "" else "." ++ padZ 6 d.micro)

/-- Python ordering of two datetimes: lexicographic on the seven fields. -/
def dtLt (a b : PyDatetime) : Bool :=
  decide (a.year < b.year) || (a.year == b.year &&
    (decide (a.month < b.month) || (a.month == b.month &&
      (decide (a.day < b.day) || (a.day == b.day &&
        (decide (a.hour < b.hour) || (a.hour == b.hour &&
          (decide (a.minute < b.minute) || (a.minute == b.minute &&
            (decide (a.second < b.second) || (a.second == b.second &&
              decide (a.micro < b.micro))))))))))))

/-- The Python expression `a > v` where `a` is a `datetime` and `v` is an
arbitrary value: defined (`some`) only when `v` is also a datetime, otherwise
a `TypeError` is raised (`none`).  In particular comparing a datetime with the
text timestamp read back from the store raises. -/
def pyGtDt (a : PyDatetime) (v : PyVal) : Option Bool :=
  match v with
  | .vDt b => some (dtLt b a)
  | _ => none

/-- Python `==` between a stored key value and a `str`; comparisons across
types are simply unequal (no error). -/
def pyKeyEq (k : PyVal) (s : String) : Bool :=
  match k with
  | .vStr t => t == s
  | _ => false

/-- Python truthiness test used by `search_files` (`if not value: continue`). -/
def isFalsy (v : PyVal) : Bool :=
  match v with
  | .vNone => true
  | .vInt n => n == 0
  | .vStr s => s == ""
  | .vDt _ => false

/-- Python `f"..."` / `str()` rendering of a value, as used when the search
code builds the pattern `f"%\x7bvalue\x7d%"`. -/
def pyFormat (v : PyVal) : String :=
  match v with
  | .vNone => "None"
  | .vInt n => toString n
  | .vStr s => s
  | .vDt d => isoDt d

/-- The `sqlite3` parameter adapter: datetimes become their ISO text form,
everything else is stored as-is. -/
def adapt (v : PyVal) : PyVal :=
  match v with
  | .vDt d => .vStr (isoDt d)
  | x => x

/-- ASCII lowercasing of a string (`Char.toLower` only affects ASCII), the
behaviour of both the SQLite `lower()` function and of `LIKE` on ASCII. -/
def lowStr (s : String) : String :=
  String.mk (s.data.map Char.toLower)

/-- SQLite `lower(X)`: NULL propagates, text is ASCII-lowercased, numbers are
rendered as their text form (no letters to lower).  A datetime never reaches
SQLite unadapted; its ISO text is used for totality. -/
def sqlLower (v : PyVal) : Option String :=
  match v with
  | .vNone => none
  | .vInt n => some (toString n)
  | .vStr s => some (lowStr s)
  | .vDt d => some (lowStr (isoDt d))

/-- Does list `p` occur as a pattern-free literal at the head of `t`? -/
def startsL : List Char → List Char → Bool
  | [], _ => true
  | _ :: _, [] => false
  | a :: p, c :: t => a == c && startsL p t

/-- Does list `p` occur as a contiguous sublist of `t`? -/
def containsL (p t : List Char) : Bool :=
  match t with
  | [] => startsL p []
  | _ :: t' => startsL p t || containsL p t'

/-- Fuel-indexed worker for `LIKE` matching (structural recursion on the
fuel, so that concrete matches reduce inside the kernel).  Every recursive
step shortens pattern plus text, so the fuel chosen by `likeMatch` is always
sufficient; `likeFuel_congr` below makes this precise. -/
def likeFuel : Nat → List Char → List Char → Bool
  | 0, _, _ => false
  | fuel + 1, p, t =>
    match p, t with
    | [], [] => true
    | [], _ :: _ => false
    | a :: p', t =>
      if a = '%' then
        (likeFuel fuel p' t ||
          match t with
          | [] => false
          | _ :: t' => likeFuel fuel (a :: p') t')
      else
        match t with
        | [] => false
        | c :: t' => (a == '_' || a == c) && likeFuel fuel p' t'

/-- SQLite `LIKE` matching: `%` matches any (possibly empty) run of
characters, `_` matches exactly one character, every other pattern character
matches itself.  Both sides are lowercased by the caller, so plain character
comparison suffices. -/
def likeMatch (p t : List Char) : Bool :=
  likeFuel (p.length + t.length + 1) p t

/-- Numeric value of a decimal digit character. -/
def dVal (c : Char) : Nat := c.toNat - 48

/-- Tail of a time string after the minutes (or seconds) part: empty, or a
fractional part `.nnn`. -/
def timeTailOk : List Char → Bool
  | [] => true
  | '.' :: ds => !ds.isEmpty && ds.all Char.isDigit
  | _ => false

/-- Validity of the time portion `HH:MM[:SS[.fff]]` accepted by the SQLite
date functions. -/
def timeOk : List Char → Bool
  | h1 :: h2 :: ':' :: m1 :: m2 :: rest =>
    h1.isDigit && h2.isDigit && m1.isDigit && m2.isDigit &&
    decide (dVal h1 * 10 + dVal h2 ≤ 24) &&
    decide (dVal m1 * 10 + dVal m2 ≤ 59) &&
    (match rest with
     | [] => true
     | ':' :: s1 :: s2 :: rest2 =>
       s1.isDigit && s2.isDigit && decide (dVal s1 * 10 + dVal s2 ≤ 59) &&
         timeTailOk rest2
     | _ => false)
  | _ => false

/-- The SQLite `date(X)` function on a text argument: accepts
`YYYY-MM-DD[ |T]HH:MM[:SS[.fff]]` with month 01–12 and day 01–31, returning
the ten-character date part, and NULL (`none`) otherwise.  The julian-day
numeric argument form and the renormalisation of impossible calendar days are
outside the inputs this program produces and are not modelled. -/
def sqlDateStr (s : String) : Option String :=
  match s.data with
  | y1 :: y2 :: y3 :: y4 :: '-' :: m1 :: m2 :: '-' :: d1 :: d2 :: rest =>
    if y1.isDigit && y2.isDigit && y3.isDigit && y4.isDigit &&
        m1.isDigit && m2.isDigit && d1.isDigit && d2.isDigit &&
        decide (1 ≤ dVal m1 * 10 + dVal m2) &&
        decide (dVal m1 * 10 + dVal m2 ≤ 12) &&
        decide (1 ≤ dVal d1 * 10 + dVal d2) &&
        decide (dVal d1 * 10 + dVal d2 ≤ 31) &&
        (match rest with
         | [] => true
         | c :: rest' => (c == ' ' || c == 'T') && timeOk rest') then
      some (String.mk [y1, y2, y3, y4, '-', m1, m2, '-', d1, d2])
    else none
  | _ => none

/-- SQLite `date(X)` on an arbitrary stored value: NULL and non-text values
yield NULL for the inputs this program produces. -/
def sqlDate (v : PyVal) : Option String :=
  match v with
  | .vStr s => sqlDateStr s
  | _ => none

/-!
## Data model: the `files_metadata` and `recent_folders` tables

`files_metadata` has fifteen columns.  `file_id` is `INTEGER PRIMARY KEY
AUTOINCREMENT`; SQLite enforces that rowid-alias column to hold an integer,
so it is a `Nat` here.  Every other column is dynamically typed.
-/

/-- The fourteen non-key columns of `files_metadata`, the targets of the
dynamically built column lists in `add_file_metadata` / `update_file_metadata`
and of search criteria. -/
inductive Col where
  | file_path | file_name | source | file_type
  | issue_status | revision | department | drawing_type
  | plant_area | equipment_included | notes | todos
  | last_modified | created_date
  deriving DecidableEq, Repr

/-- One row of `files_metadata`. -/
structure Row where
  file_id : Nat
  file_path : PyVal
  file_name : PyVal
  source : PyVal
  file_type : PyVal
  issue_status : PyVal
  revision : PyVal
  department : PyVal
  drawing_type : PyVal
  plant_area : PyVal
  equipment_included : PyVal
  notes : PyVal
  todos : PyVal
  last_modified : PyVal
  created_date : PyVal
  deriving DecidableEq, Repr

/-- Read a named column of a row. -/
def getCol (r : Row) : Col → PyVal
  | .file_path => r.file_path
  | .file_name => r.file_name
  | .source => r.source
  | .file_type => r.file_type
  | .issue_status => r.issue_status
  | .revision => r.revision
  | .department => r.department
  | .drawing_type => r.drawing_type
  | .plant_area => r.plant_area
  | .equipment_included => r.equipment_included
  | .notes => r.notes
  | .todos => r.todos
  | .last_modified => r.last_modified
  | .created_date => r.created_date

/-- Write a named column of a row. -/
def setCol (r : Row) (c : Col) (v : PyVal) : Row :=
  match c with
  | .file_path => { r with file_path := v }
  | .file_name => { r with file_name := v }
  | .source => { r with source := v }
  | .file_type => { r with file_type := v }
  | .issue_status => { r with issue_status := v }
  | .revision => { r with revision := v }
  | .department => { r with department := v }
  | .drawing_type => { r with drawing_type := v }
  | .plant_area => { r with plant_area := v }
  | .equipment_included => { r with equipment_included := v }
  | .notes => { r with notes := v }
  | .todos => { r with todos := v }
  | .last_modified => { r with last_modified := v }
  | .created_date => { r with created_date := v }

/-- One row of `recent_folders`. `last_accessed` is `CURRENT_TIMESTAMP`,
modelled as an abstract monotone tick. -/
structure RecRow where
  folder_id : Nat
  folder_path : String
  last_accessed : Nat
  deriving DecidableEq, Repr

/-- The persistent store: the `files_metadata` rows in rowid order with the
next surrogate key, and the `recent_folders` rows likewise.  The
`user_input_history` table plays no part in the claims. -/
structure DB where
  rows : List Row
  nextId : Nat
  recents : List RecRow
  nextFolderId : Nat
  deriving DecidableEq, Repr

/-!
## Ordering of SQL values and sorting

`ORDER BY ... DESC` sorts by the SQLite total order on storage classes:
NULL, then numeric, then text (byte order, which agrees with codepoint order
for the ASCII data here).  An unadapted datetime value never reaches SQLite;
it is given an arbitrary slot between numeric and text for totality.
-/

/-- Numeric encoding of a datetime used only to totally order the (unreachable
in the store) `vDt` case of `sqlValLe`. -/
def dtKeyN (d : PyDatetime) : Nat :=
  ((((d.year * 13 + d.month) * 32 + d.day) * 25 + d.hour) * 61 + d.minute)
      * 61 * 1000000 + d.second * 1000000 + d.micro

/-- SQLite comparison order on values: NULL < INTEGER < (datetime) < TEXT,
integers by value, text lexicographically. -/
def sqlValLe (a b : PyVal) : Bool :=
  match a, b with
  | .vNone, _ => true
  | _, .vNone => false
  | .vInt x, .vInt y => decide (x ≤ y)
  | .vInt _, _ => true
  | _, .vInt _ => false
  | .vDt x, .vDt y => decide (dtKeyN x ≤ dtKeyN y)
  | .vDt _, .vStr _ => true
  | .vStr _, .vDt _ => false
  | .vStr x, .vStr y => decide (x.data ≤ y.data)

/-- Insert into a list sorted by the boolean relation `le`. -/
def insertBy (le : α → α → Bool) (a : α) : List α → List α
  | [] => [a]
  | b :: l => if le a b then a :: b :: l else b :: insertBy le a l

/-- Insertion sort by the boolean relation `le` (the model of `ORDER BY`). -/
def sortBy (le : α → α → Bool) : List α → List α
  | [] => []
  | a :: l => insertBy le a (sortBy le l)

/-!
## Catalog store operations (`src/db_manager.py`)
-/

/-- Apply a fields mapping (the dynamically built SET clause / column list) to
a row: each supplied column is overwritten with the adapted parameter value. -/
def applyFields (r : Row) (flds : List (Col × PyVal)) : Row :=
  flds.foldl (fun r kv => setCol r kv.1 (adapt kv.2)) r

/-- The schema declares `file_path TEXT NOT NULL` and `file_name TEXT NOT
NULL`; a written row whose new contents leave either column NULL violates the
constraint and the statement raises `sqlite3.IntegrityError`. -/
def rowNotNullOk (r : Row) : Bool :=
  !(r.file_path == PyVal.vNone) && !(r.file_name == PyVal.vNone)

/-- A fresh row before the INSERT column values are applied: every column NULL
except `created_date`, whose schema default is CURRENT_TIMESTAMP (`nowTs`, the
textual UTC clock value at statement time). -/
def blankRow (fid : Nat) (nowTs : String) : Row :=
  { file_id := fid, file_path := .vNone, file_name := .vNone, source := .vNone,
    file_type := .vNone, issue_status := .vNone, revision := .vNone,
    department := .vNone, drawing_type := .vNone, plant_area := .vNone,
    equipment_included := .vNone, notes := .vNone, todos := .vNone,
    last_modified := .vNone, created_date := .vStr nowTs }

/-- `DatabaseManager.add_file_metadata`: INSERT built from the mapping keys;
returns the assigned rowid.  An empty mapping produces the malformed statement
`INSERT INTO files_metadata () VALUES ()`, and a mapping that leaves a NOT
NULL column (`file_path`, `file_name`) absent or NULL violates the schema
constraint; either way the raised `sqlite3.Error` is caught by the handler
(returns `None`, the rolled-back store unchanged). -/
def add_file_metadata (db : DB) (nowTs : String) (flds : List (Col × PyVal)) :
    DB × Option Int :=
  if flds.isEmpty then (db, none)
  else if !(rowNotNullOk (applyFields (blankRow db.nextId nowTs) flds)) then
    (db, none)
  else
    ({ db with
        rows := db.rows ++ [applyFields (blankRow db.nextId nowTs) flds],
        nextId := db.nextId + 1 },
     some (Int.ofNat db.nextId))

/-- The SQLite comparison `file_id = ?` on the rowid-alias INTEGER column:
INTEGER affinity is applied to the bound parameter, so text spelling exactly
the row id compares equal, while any other text (in particular any real file
path) matches nothing. -/
def idMatch (fid : Nat) (p : PyVal) : Bool :=
  match p with
  | .vInt n => n == Int.ofNat fid
  | .vStr s => s == toString fid
  | _ => false

/-- `DatabaseManager.update_file_metadata(file_id, metadata)`: dynamic UPDATE
keyed on `file_id`.  An empty mapping yields the malformed statement
`UPDATE files_metadata SET  WHERE file_id = ?`; a matched row whose rewritten
contents would leave `file_path` or `file_name` NULL raises
`sqlite3.IntegrityError` and the statement is rolled back; both errors are
caught by the handler (`False`, no change).  Otherwise the statement executes
and the function returns `True` without consulting `cursor.rowcount`, whether
or not any row matched. -/
def update_file_metadata (db : DB) (ident : PyVal) (flds : List (Col × PyVal)) :
    DB × Bool :=
  if flds.isEmpty then (db, false)
  else if db.rows.any fun r =>
      idMatch r.file_id (adapt ident) && !(rowNotNullOk (applyFields r flds)) then
    (db, false)
  else
    ({ db with rows := db.rows.map fun r =>
        if idMatch r.file_id (adapt ident) then applyFields r flds else r },
     true)

/-- The SQLite comparison `file_path = ?` against a Python `str` parameter. -/
def pathMatch (stored : PyVal) (p : String) : Bool :=
  match stored with
  | .vStr s => s == p
  | _ => false

/-- `DatabaseManager.update_file_metadata_by_path`: same dynamic UPDATE keyed
on `file_path`, with the same empty-mapping and NOT NULL error paths caught
inside (`False`, rolled back); on success the result reflects
`cursor.rowcount > 0`. -/
def update_file_metadata_by_path (db : DB) (p : String)
    (flds : List (Col × PyVal)) : DB × Bool :=
  if flds.isEmpty then (db, false)
  else if db.rows.any fun r =>
      pathMatch r.file_path p && !(rowNotNullOk (applyFields r flds)) then
    (db, false)
  else
    ({ db with rows := db.rows.map fun r =>
        if pathMatch r.file_path p then applyFields r flds else r },
     db.rows.any fun r => pathMatch r.file_path p)

/-- The two temporal columns special-cased by `search_files`. -/
def isDateCol (c : Col) : Bool := c == Col.last_modified || c == Col.created_date

/-- One criterion of `search_files` evaluated on a row: falsy values are
skipped (`if not value: continue`), the literal sentinel `"YYYY-MM-DD"` on a
date column is skipped, date columns compare by `date(col) = date(?)`, and
every other column by `lower(col) LIKE lower('%value%')`. -/
def critClause (r : Row) (c : Col) (v : PyVal) : Bool :=
  if isFalsy v then true
  else if isDateCol c then
    if v == .vStr "YYYY-MM-DD" then true
    else
      match sqlDate (getCol r c), sqlDate (adapt v) with
      | some a, some b => a == b
      | _, _ => false
  else
    match sqlLower (getCol r c) with
    | some s => likeMatch (lowStr ("%" ++ pyFormat v ++ "%")).data s.data
    | none => false

/-- A row satisfies the conjunction (`" AND ".join`) of all criteria. -/
def rowSat (crit : List (Col × PyVal)) (r : Row) : Bool :=
  crit.all fun kv => critClause r kv.1 kv.2

/-- Row comparison realising `ORDER BY last_modified DESC`. -/
def rowDescLe (r1 r2 : Row) : Bool := sqlValLe r2.last_modified r1.last_modified

/-- `DatabaseManager.search_files`: SELECT * of the rows satisfying the
conjunction of the generated WHERE clauses, ordered by `last_modified`
descending (ties in arbitrary but consistent store order). -/
def search_files (db : DB) (crit : List (Col × PyVal)) : List Row :=
  sortBy rowDescLe (db.rows.filter (rowSat crit))

/-- Recent-folder comparison realising `ORDER BY last_accessed DESC`. -/
def recDescLe (a b : RecRow) : Bool := decide (b.last_accessed ≤ a.last_accessed)

/-- `DatabaseManager.get_recent_folders`. -/
def get_recent_folders (db : DB) (lim : Nat) : List RecRow :=
  (sortBy recDescLe db.recents).take lim

/-- The upsert step of `add_recent_folder`: refresh `last_accessed` of an
existing row for the path (UNIQUE column), else insert a fresh row. -/
def upsertRecent (db : DB) (p : String) (t : Nat) : DB :=
  if db.recents.any fun r => r.folder_path == p then
    { db with recents := db.recents.map fun r =>
        if r.folder_path == p then { r with last_accessed := t } else r }
  else
    { db with recents := db.recents ++ [⟨db.nextFolderId, p, t⟩],
              nextFolderId := db.nextFolderId + 1 }

/-- `DatabaseManager.add_recent_folder`: upsert the folder with the current
timestamp `t`, then DELETE every row whose path is not among the five most
recently accessed. -/
def add_recent_folder (db : DB) (p : String) (t : Nat) : DB × Bool :=
  ({ upsertRecent db p t with
      recents := (upsertRecent db p t).recents.filter fun r =>
        (((sortBy recDescLe (upsertRecent db p t).recents).take 5).map
            RecRow.folder_path).contains r.folder_path },
   true)

/-!
## Folder scanner (`src/file_scanner.py`) and its configuration
-/

/-- The extension-to-type mapping `FILE_TYPES` of `src/config.py`. -/
def FILE_TYPES : List (String × String) :=
  [(".pdf", "PDF"), (".dwg", "DWG"), (".doc", "DOC"), (".docx", "DOC"),
   (".xls", "XLS"), (".xlsx", "XLS"), (".txt", "TXT"), (".csv", "CSV"),
   (".zip", "ZIP"), (".rar", "RAR")]

/-- `FILE_TYPES.get(extension, "OTHER")`. -/
def lookupType (ext : String) : String :=
  match FILE_TYPES.find? (fun kv => kv.1 == ext) with
  | some kv => kv.2
  | none => "OTHER"

/-- The suffix of the list starting at its last dot, if any. -/
def lastDotSuffix : List Char → Option (List Char)
  | [] => none
  | c :: t =>
    match lastDotSuffix t with
    | some s => some s
    | none => if c == '.' then some (c :: t) else none

/-- `os.path.splitext(name)[1]`: the extension including its dot, where the
run of leading dots of the name carries no extension. -/
def extOf (name : String) : String :=
  match lastDotSuffix (name.data.dropWhile fun c => c == '.') with
  | some s => String.mk s
  | none => ""

/-- One filesystem entry as delivered by `os.walk` and examined by
`_extract_metadata`: the joined path, the bare filename, the drive component
of the path, the two stat timestamps, and whether `os.stat` succeeds (a file
removed or unreadable mid-scan raises, modelled by `statOk = false`). -/
structure DiskFile where
  path : String
  name : String
  drive : String
  mtime : PyDatetime
  ctime : PyDatetime
  statOk : Bool
  deriving DecidableEq, Repr

/-- A scan root: whether `os.path.exists` holds, and the file enumeration the
recursive `os.walk` produces beneath it, in walk order. -/
structure Folder where
  path : String
  present : Bool
  files : List DiskFile
  deriving DecidableEq, Repr

/-- The metadata dictionary built by `FileScanner._extract_metadata`. -/
structure Metadata where
  file_path : String
  file_name : String
  source : String
  file_type : String
  last_modified : PyDatetime
  created_date : PyDatetime
  deriving DecidableEq, Repr

/-- `FileScanner._extract_metadata`: stat the file and assemble the metadata
mapping; a failing `os.stat` raises (`none`), to be caught by the per-file
handler in `scan_folder`. -/
def extractMetadata (f : DiskFile) : Option Metadata :=
  if f.statOk then
    some { file_path := f.path, file_name := f.name,
           source := if f.drive == "" then "local" else f.drive,
           file_type := lookupType (lowStr (extOf f.name)),
           last_modified := f.mtime, created_date := f.ctime }
  else none

/-- The fields mapping, in dict insertion order, that the scanner passes to
the store for one file. -/
def mdFields (m : Metadata) : List (Col × PyVal) :=
  [(Col.file_path, .vStr m.file_path), (Col.file_name, .vStr m.file_name),
   (Col.source, .vStr m.source), (Col.file_type, .vStr m.file_type),
   (Col.last_modified, .vDt m.last_modified),
   (Col.created_date, .vDt m.created_date)]

/-- Insertion into a Python dict modelled as an association list: an existing
key keeps its position and receives the new value, a new key is appended. -/
def dictInsert (d : List (PyVal × PyVal)) (k v : PyVal) : List (PyVal × PyVal) :=
  if d.any fun kv => kv.1 == k then
    d.map fun kv => if kv.1 == k then (kv.1, v) else kv
  else d ++ [(k, v)]

/-- Python dict membership and subscript (`s in d`, `d[s]`) for a `str`
subscript, combined. -/
def dictGet (d : List (PyVal × PyVal)) (s : String) : Option PyVal :=
  match d.find? fun kv => pyKeyEq kv.1 s with
  | some kv => some kv.2
  | none => none

/-- `FileScanner._get_existing_files`: query the store for rows whose
`file_path` matches the folder path and build the path-to-last_modified dict.
The comprehension guard that both keys are present always holds, every column
being selected. -/
def getExistingFiles (db : DB) (folderPath : String) : List (PyVal × PyVal) :=
  (search_files db [(Col.file_path, .vStr folderPath)]).foldl
    (fun d r => dictInsert d r.file_path r.last_modified) []

/-- Result of a scan: the store afterwards, the returned success flag, and the
local `processed_files` and `removed_files` sets (exposed because the
removed-file claims quantify over them; in the source they drive log lines). -/
structure ScanResult where
  db : DB
  ok : Bool
  processed : List String
  removed : List PyVal
  deriving DecidableEq, Repr

/-- The per-file body of the `scan_folder` walk.  Every exception inside the
per-file try block — extraction failure, or the `TypeError` raised when the
freshly extracted datetime is compared with a stored value of another type —
is caught by the per-file handler, which logs and continues without recording
the path as processed.  In the modified branch the source passes `file_path`
as the first positional argument of `update_file_metadata`, i.e. as its
`file_id` parameter. -/
def scanStep (existing : List (PyVal × PyVal)) (nowTs : String)
    (acc : DB × List String) (f : DiskFile) : DB × List String :=
  match extractMetadata f with
  | none => acc
  | some md =>
    match dictGet existing f.path with
    | some stored =>
      match pyGtDt md.last_modified stored with
      | none => acc
      | some true =>
        ((update_file_metadata acc.1 (.vStr f.path) (mdFields md)).1,
         acc.2 ++ [f.path])
      | some false => (acc.1, acc.2 ++ [f.path])
    | none =>
      ((add_file_metadata acc.1 nowTs (mdFields md)).1, acc.2 ++ [f.path])

/-- `FileScanner.scan_folder`: validate the root, snapshot the existing files
once, walk the enumeration through `scanStep`, then compute
`removed = snapshot keys minus processed` — `_handle_removed_files` only logs
these.  `nowTs` is the wall-clock text a CURRENT_TIMESTAMP default would use
(never reached: the scanner always supplies `created_date`). -/
def scan_folder (db : DB) (F : Folder) (nowTs : String) : ScanResult :=
  if !F.present then ⟨db, false, [], []⟩
  else
    let existing := getExistingFiles db F.path
    let res := F.files.foldl (scanStep existing nowTs) (db, [])
    ⟨res.1, true, res.2,
     (existing.map Prod.fst).filter fun k => !res.2.any fun p => pyKeyEq k p⟩

/-!
## Revision parsing (`parse_revision` in `src/sql_server.py`)
-/

/-- The character class `\s` of Python regular expressions. -/
def wsChar (c : Char) : Bool :=
  c == ' ' || c == '\t' || c == '\n' || c == '\x0d' || c == '\x0b' || c == '\x0c'

/-- The character class `[A-Z0-9]`. -/
def alnumU (c : Char) : Bool :=
  (decide ('A' ≤ c) && decide (c ≤ 'Z')) || (decide ('0' ≤ c) && decide (c ≤ '9'))

/-- Attempt of the pattern `REV\s*([A-Z0-9]+)` anchored at the head of the
list, returning the capture group.  The two greedy runs range over disjoint
character classes, so no backtracking arises. -/
def capAtRev : List Char → Option (List Char)
  | 'R' :: 'E' :: 'V' :: rest =>
    match (rest.dropWhile wsChar).takeWhile alnumU with
    | [] => none
    | g => some g
  | _ => none

/-- Attempt of the pattern `R(\d+)` anchored at the head of the list. -/
def capAtR : List Char → Option (List Char)
  | 'R' :: rest =>
    match rest.takeWhile Char.isDigit with
    | [] => none
    | g => some g
  | _ => none

/-- Attempt of the pattern `V(\d+(\.\d+)?)` anchored at the head of the list;
the optional fractional part is taken greedily when present. -/
def capAtV : List Char → Option (List Char)
  | 'V' :: rest =>
    match rest.takeWhile Char.isDigit with
    | [] => none
    | ds =>
      match rest.drop ds.length with
      | '.' :: rest2 =>
        match rest2.takeWhile Char.isDigit with
        | [] => some ds
        | ds2 => some (ds ++ '.' :: ds2)
      | _ => some ds
  | _ => none

/-- `re.search`: try the anchored attempt at each successive position, first
match wins. -/
def reSearch (cap : List Char → Option (List Char)) : List Char → Option (List Char)
  | [] => cap []
  | c :: t =>
    match cap (c :: t) with
    | some g => some g
    | none => reSearch cap t

/-- `parse_revision` of `src/sql_server.py`: the three case-insensitive
patterns tried in order against the uppercased filename; the first capture
group wins, else `none`. -/
def parse_revision (filename : String) : Option String :=
  match reSearch capAtRev (filename.data.map Char.toUpper) with
  | some g => some (String.mk g)
  | none =>
    match reSearch capAtR (filename.data.map Char.toUpper) with
    | some g => some (String.mk g)
    | none =>
      match reSearch capAtV (filename.data.map Char.toUpper) with
      | some g => some (String.mk g)
      | none => none

/-- A string free of the two `LIKE` metacharacters. -/
def wildFree (l : List Char) : Bool :=
  l.all fun c => !(c == '%' || c == '_')

/-- The search-criterion semantics in the words of the specification: the
same skipping rules and calendar-date handling as the implementation, but a
text field matches by case-insensitive substring of the rendered value. -/
def critClauseSpec (r : Row) (c : Col) (v : PyVal) : Bool :=
  if isFalsy v then true
  else if isDateCol c then
    if v == .vStr "YYYY-MM-DD" then true
    else
      match sqlDate (getCol r c), sqlDate (adapt v) with
      | some a, some b => a == b
      | _, _ => false
  else
    match sqlLower (getCol r c) with
    | some s => containsL (lowStr (pyFormat v)).data s.data
    | none => false

/-- A row satisfies every criterion in the sense of the specification. -/
def rowSatSpec (crit : List (Col × PyVal)) (r : Row) : Bool :=
  crit.all fun kv => critClauseSpec r kv.1 kv.2

/-- Criteria whose rendered values are metacharacter-free, the regime in
which `LIKE '%value%'` and substring matching coincide. -/
def critWf (crit : List (Col × PyVal)) : Prop :=
  ∀ kv ∈ crit, wildFree (lowStr (pyFormat kv.2)).data = true

/-- Every enumerated path extends the scan root, which `os.walk` guarantees
(each yielded root begins with the argument and the filename is joined onto
it). -/
def underRoot (F : Folder) : Prop :=
  ∀ f ∈ F.files, ∃ rest, f.path = F.path ++ rest

/-- No enumerated path is literally the decimal spelling of a natural
number — true of any real path, which contains a separator; it makes the
misdirected `WHERE file_id = ?` comparison miss every row. -/
def noNumPath (F : Folder) : Prop :=
  ∀ f ∈ F.files, ∀ n : Nat, f.path ≠ toString n

/-- The per-file body runs to completion without an exception: extraction
succeeds and, if the path is tracked in the snapshot, the timestamp
comparison does not raise. -/
def stepSucceeds (existing : List (PyVal × PyVal)) (f : DiskFile) : Prop :=
  ∃ md, extractMetadata f = some md ∧
    ∀ stored, dictGet existing f.path = some stored →
      pyGtDt md.last_modified stored ≠ none

/-!
## Concrete fixtures used by counterexamples and witnesses
-/

/-- Timestamp 2024-01-02 03:04:05, a first-scan modification time. -/
def exDt1 : PyDatetime := ⟨2024, 1, 2, 3, 4, 5, 0⟩

/-- Timestamp 2024-06-01 00:00:00, a strictly newer modification time. -/
def exDt2 : PyDatetime := ⟨2024, 6, 1, 0, 0, 0, 0⟩

/-- A freshly initialised store. -/
def exDb0 : DB := ⟨[], 1, [], 1⟩

/-- One ordinary readable file under the root `/jobs`. -/
def exFileA : DiskFile := ⟨"/jobs/a.pdf", "a.pdf", "", exDt1, exDt1, true⟩

/-- The root `/jobs` holding `exFileA`. -/
def exFolder : Folder := ⟨"/jobs", true, [exFileA]⟩

/-- The same root after the file was modified on disk. -/
def exFolderNewer : Folder :=
  ⟨"/jobs", true, [{ exFileA with mtime := exDt2, ctime := exDt2 }]⟩

/-- A root that does not exist on disk. -/
def exFolderMissing : Folder := ⟨"/nowhere", false, []⟩

/-- The same file when `os.stat` fails mid-scan. -/
def exFileBroken : DiskFile := ⟨"/jobs/a.pdf", "a.pdf", "", exDt1, exDt1, false⟩

/-- The root `/jobs` where the only file fails extraction. -/
def exFolderBroken : Folder := ⟨"/jobs", true, [exFileBroken]⟩

/-- The store contents after a first scan of `exFolder`. -/
def exDb1 : DB := (scan_folder exDb0 exFolder "2024-01-02 03:04:05").db

/-- A row whose department is `abc`, for the search counterexample. -/
def exRowDept : Row :=
  { file_id := 1, file_path := .vStr "/jobs/d.pdf", file_name := .vStr "d.pdf",
    source := .vStr "local", file_type := .vStr "PDF", issue_status := .vNone,
    revision := .vNone, department := .vStr "abc", drawing_type := .vNone,
    plant_area := .vNone, equipment_included := .vNone, notes := .vNone,
    todos := .vNone, last_modified := .vStr "2024-01-02 03:04:05",
    created_date := .vStr "2024-01-02 03:04:05" }

/-- A store holding just `exRowDept`. -/
def exDbDept : DB := ⟨[exRowDept], 2, [], 1⟩

/-- A department criterion containing the `LIKE` metacharacter `_`. -/
def exCritU : List (Col × PyVal) := [(Col.department, .vStr "a_c")]

/-- A metacharacter-free department criterion. -/
def exCritAB : List (Col × PyVal) := [(Col.department, .vStr "ab")]

/-- A tracked row whose file is absent from `exFolder` on disk. -/
def exRowGone : Row :=
  { file_id := 7, file_path := .vStr "/jobs/gone.pdf",
    file_name := .vStr "gone.pdf", source := .vStr "local",
    file_type := .vStr "PDF", issue_status := .vNone, revision := .vNone,
    department := .vNone, drawing_type := .vNone, plant_area := .vNone,
    equipment_included := .vNone, notes := .vNone, todos := .vNone,
    last_modified := .vStr "2024-01-02 03:04:05",
    created_date := .vStr "2024-01-02 03:04:05" }

/-- A store tracking `exRowGone` (and nothing else). -/
def exDbGone : DB := ⟨[exRowGone], 8, [], 1⟩

/-- Five recent folders with distinct paths and strictly increasing access
times. -/
def exDbRec : DB :=
  ⟨[], 1,
   [⟨1, "f1", 1⟩, ⟨2, "f2", 2⟩, ⟨3, "f3", 3⟩, ⟨4, "f4", 4⟩, ⟨5, "f5", 5⟩], 6⟩

/-!
## Lemmas about pattern matching
-/

theorem insertBy_perm (le : α → α → Bool) (a : α) (l : List α) :
    List.Perm (insertBy le a l) (a :: l) := by
  induction l with
  | nil => simp [insertBy]
  | cons b l ih =>
    simp only [insertBy]
    split
    · exact List.Perm.refl _
    · exact (List.Perm.cons b ih).trans (List.Perm.swap a b l)

theorem sortBy_perm (le : α → α → Bool) (l : List α) :
    List.Perm (sortBy le l) l := by
  induction l with
  | nil => simp [sortBy]
  | cons a l ih =>
    exact (insertBy_perm le a (sortBy le l)).trans (ih.cons a)

theorem insertBy_sorted (le : α → α → Bool)
    (htot : ∀ a b, le a b = true ∨ le b a = true)
    (htr : ∀ a b c, le a b = true → le b c = true → le a c = true)
    (a : α) (l : List α) (hl : l.Pairwise (fun x y => le x y = true)) :
    (insertBy le a l).Pairwise (fun x y => le x y = true) := by
  induction l with
  | nil => simp [insertBy]
  | cons b l ih =>
    rcases hl with - | ⟨hb, hl⟩
    simp only [insertBy]
    split
    · rename_i h
      refine List.Pairwise.cons ?_ (List.Pairwise.cons hb hl)
      intro x hx
      rcases List.mem_cons.mp hx with rfl | hx
      · exact h
      · exact htr a b x h (hb x hx)
    · rename_i h
      refine List.Pairwise.cons ?_ (ih hl)
      intro x hx
      have hx' := (insertBy_perm le a l).mem_iff.mp hx
      rcases List.mem_cons.mp hx' with rfl | hx'
      · rcases htot x b with h' | h'
        · exact absurd h' h
        · exact h'
      · exact hb x hx'

theorem sortBy_sorted (le : α → α → Bool)
    (htot : ∀ a b, le a b = true ∨ le b a = true)
    (htr : ∀ a b c, le a b = true → le b c = true → le a c = true)
    (l : List α) :
    (sortBy le l).Pairwise (fun x y => le x y = true) := by
  induction l with
  | nil => simp [sortBy]
  | cons a l ih => exact insertBy_sorted le htot htr a (sortBy le l) ih


theorem likeFuel_congr (f1 : Nat) : ∀ (f2 : Nat) (p t : List Char),
    p.length + t.length < f1 → p.length + t.length < f2 →
    likeFuel f1 p t = likeFuel f2 p t := by
  induction f1 with
  | zero =>
    intro f2 p t h1 h2
    exact absurd h1 (Nat.not_lt_zero _)
  | succ n ih =>
    intro f2 p t h1 h2
    cases f2 with
    | zero => exact absurd h2 (Nat.not_lt_zero _)
    | succ m =>
      cases p with
      | nil => cases t <;> rfl
      | cons a p' =>
        cases t with
        | nil =>
          simp only [likeFuel]
          by_cases ha : a = '%'
          · rw [if_pos ha, if_pos ha, Bool.or_false, Bool.or_false]
            exact ih m p' []
              (by simp only [List.length_cons, List.length_nil] at h1 ⊢; omega)
              (by simp only [List.length_cons, List.length_nil] at h2 ⊢; omega)
          · rw [if_neg ha, if_neg ha]
        | cons c t' =>
          simp only [likeFuel]
          by_cases ha : a = '%'
          · rw [if_pos ha, if_pos ha,
              ih m p' (c :: t')
                (by simp only [List.length_cons] at h1 ⊢; omega)
                (by simp only [List.length_cons] at h2 ⊢; omega),
              ih m (a :: p') t'
                (by simp only [List.length_cons] at h1 ⊢; omega)
                (by simp only [List.length_cons] at h2 ⊢; omega)]
          · rw [if_neg ha, if_neg ha,
              ih m p' t'
                (by simp only [List.length_cons] at h1 ⊢; omega)
                (by simp only [List.length_cons] at h2 ⊢; omega)]

theorem likeMatch_pct_nil (p : List Char) :
    likeMatch ('%' :: p) [] = likeMatch p [] := by
  show (likeFuel (p.length + 1) p [] || false) = likeFuel (p.length + 1) p []
  exact Bool.or_false _

theorem likeMatch_pct_cons (p : List Char) (c : Char) (t : List Char) :
    likeMatch ('%' :: p) (c :: t) =
      (likeMatch p (c :: t) || likeMatch ('%' :: p) t) := by
  show (likeFuel (p.length + 1 + (t.length + 1)) p (c :: t) ||
      likeFuel (p.length + 1 + (t.length + 1)) ('%' :: p) t) =
    (likeFuel (p.length + (t.length + 1) + 1) p (c :: t) ||
      likeFuel (p.length + 1 + t.length + 1) ('%' :: p) t)
  rw [likeFuel_congr _ (p.length + (t.length + 1) + 1) p (c :: t)
      (by simp only [List.length_cons]; omega)
      (by simp only [List.length_cons]; omega),
    likeFuel_congr _ (p.length + 1 + t.length + 1) ('%' :: p) t
      (by simp only [List.length_cons]; omega)
      (by simp only [List.length_cons]; omega)]

theorem likeMatch_cons_nil (a : Char) (p : List Char) (ha : ¬a = '%') :
    likeMatch (a :: p) [] = false := by
  simp only [likeMatch, List.length_cons, List.length_nil, likeFuel]
  rw [if_neg ha]

theorem likeFuel_succ_cons_cons (F : Nat) (a : Char) (p : List Char)
    (c : Char) (t : List Char) :
    likeFuel (F + 1) (a :: p) (c :: t) =
      if a = '%' then (likeFuel F p (c :: t) || likeFuel F (a :: p) t)
      else ((a == '_' || a == c) && likeFuel F p t) := rfl

theorem likeMatch_cons_cons (a : Char) (p : List Char) (c : Char)
    (t : List Char) (ha : ¬a = '%') :
    likeMatch (a :: p) (c :: t) = ((a == '_' || a == c) && likeMatch p t) := by
  show likeFuel (p.length + 1 + (t.length + 1) + 1) (a :: p) (c :: t) =
    ((a == '_' || a == c) && likeFuel (p.length + t.length + 1) p t)
  rw [likeFuel_succ_cons_cons, if_neg ha,
    likeFuel_congr _ (p.length + t.length + 1) p t (by omega) (by omega)]

theorem likeMatch_pct_iff (p t : List Char) :
    likeMatch ('%' :: p) t = true ↔ ∃ i, likeMatch p (t.drop i) = true := by
  induction t with
  | nil =>
    rw [likeMatch_pct_nil]
    constructor
    · intro h
      exact ⟨0, by simpa using h⟩
    · rintro ⟨i, h⟩
      simpa using h
  | cons c t ih =>
    rw [likeMatch_pct_cons]
    simp only [Bool.or_eq_true]
    constructor
    · intro h
      rcases h with h | h
      · exact ⟨0, by simpa using h⟩
      · rcases ih.mp h with ⟨i, hi⟩
        exact ⟨i + 1, by simpa using hi⟩
    · rintro ⟨i, hi⟩
      match i, hi with
      | 0, hi => exact Or.inl (by simpa using hi)
      | i + 1, hi => exact Or.inr (ih.mpr ⟨i, by simpa using hi⟩)

theorem wildFree_cons (a : Char) (p : List Char) (hw : wildFree (a :: p) = true) :
    ¬a = '%' ∧ ¬a = '_' ∧ wildFree p = true := by
  have h : (!(a == '%' || a == '_') && wildFree p) = true := hw
  simp only [Bool.and_eq_true, Bool.not_eq_true', Bool.or_eq_false_iff,
    beq_eq_false_iff_ne, ne_eq] at h
  exact ⟨h.1.1, h.1.2, h.2⟩

theorem likeMatch_lit_iff (p q t : List Char) (hw : wildFree p = true) :
    likeMatch (p ++ q) t = true ↔ ∃ t', t = p ++ t' ∧ likeMatch q t' = true := by
  induction p generalizing t with
  | nil =>
    constructor
    · intro h
      exact ⟨t, rfl, by simpa using h⟩
    · rintro ⟨t', rfl, h⟩
      simpa using h
  | cons a p ih =>
    obtain ⟨ha1, ha2, hp⟩ := wildFree_cons a p hw
    cases t with
    | nil =>
      rw [List.cons_append, likeMatch_cons_nil _ _ ha1]
      constructor
      · intro h
        exact absurd h (by simp)
      · rintro ⟨t', h, -⟩
        exact absurd h (by simp)
    | cons c t =>
      rw [List.cons_append, likeMatch_cons_cons _ _ _ _ ha1]
      simp only [Bool.and_eq_true, Bool.or_eq_true, beq_iff_eq]
      constructor
      · intro h
        obtain ⟨hac, h⟩ := h
        rcases hac with hac | rfl
        · exact absurd hac ha2
        · rcases (ih t hp).mp h with ⟨t', rfl, h'⟩
          exact ⟨t', rfl, h'⟩
      · rintro ⟨t', ht, h'⟩
        rw [List.cons_append] at ht
        injection ht with h1 h2
        subst h1
        subst h2
        exact ⟨Or.inr rfl, (ih _ hp).mpr ⟨t', rfl, h'⟩⟩

theorem likeMatch_lone_pct (t : List Char) : likeMatch ['%'] t = true := by
  rw [likeMatch_pct_iff]
  exact ⟨t.length, by rw [List.drop_length]; rfl⟩

theorem likeMatch_append_pct (p w : List Char) :
    likeMatch (p ++ ['%']) (p ++ w) = true := by
  induction p with
  | nil => simpa using likeMatch_lone_pct w
  | cons a p ih =>
    by_cases ha : a = '%'
    · subst ha
      rw [List.cons_append, List.cons_append, likeMatch_pct_iff]
      exact ⟨1, by simpa using ih⟩
    · rw [List.cons_append, List.cons_append,
        likeMatch_cons_cons _ _ _ _ ha]
      simp only [Bool.and_eq_true, Bool.or_eq_true, beq_iff_eq]
      exact ⟨Or.inr trivial, ih⟩

/-- Any text with the literal `p` in the middle matches the pattern `%p%`,
whatever metacharacters `p` itself contains. -/
theorem likeMatch_of_middle (p u w : List Char) :
    likeMatch ('%' :: (p ++ ['%'])) (u ++ (p ++ w)) = true := by
  rw [likeMatch_pct_iff]
  refine ⟨u.length, ?_⟩
  rw [List.drop_left]
  exact likeMatch_append_pct p w

theorem startsL_iff (p t : List Char) :
    startsL p t = true ↔ ∃ t', t = p ++ t' := by
  induction p generalizing t with
  | nil => simp [startsL]
  | cons a p ih =>
    cases t with
    | nil => simp [startsL]
    | cons c t =>
      simp only [startsL, Bool.and_eq_true, beq_iff_eq, ih]
      constructor
      · rintro ⟨rfl, t', rfl⟩
        exact ⟨t', rfl⟩
      · rintro ⟨t', ht⟩
        rw [List.cons_append] at ht
        injection ht with h1 h2
        exact ⟨h1.symm, t', h2⟩

theorem containsL_iff_drop (p t : List Char) :
    containsL p t = true ↔ ∃ i, startsL p (t.drop i) = true := by
  induction t with
  | nil =>
    constructor
    · intro h
      exact ⟨0, by simpa [containsL] using h⟩
    · rintro ⟨i, h⟩
      simp only [List.drop_nil] at h
      simpa [containsL] using h
  | cons c t ih =>
    rw [containsL]
    simp only [Bool.or_eq_true]
    constructor
    · intro h
      rcases h with h | h
      · exact ⟨0, by simpa using h⟩
      · rcases ih.mp h with ⟨i, hi⟩
        exact ⟨i + 1, by simpa using hi⟩
    · rintro ⟨i, hi⟩
      match i, hi with
      | 0, hi => exact Or.inl (by simpa using hi)
      | i + 1, hi => exact Or.inr (ih.mpr ⟨i, by simpa using hi⟩)

/-- For a metacharacter-free literal `v`, the pattern `%v%` tests exactly
substring containment. -/
theorem likeMatch_substr_iff (v t : List Char) (hw : wildFree v = true) :
    likeMatch ('%' :: (v ++ ['%'])) t = true ↔ containsL v t = true := by
  rw [likeMatch_pct_iff, containsL_iff_drop]
  refine exists_congr fun i => ?_
  rw [likeMatch_lit_iff v ['%'] _ hw, startsL_iff]
  constructor
  · rintro ⟨t', ht, -⟩
    exact ⟨t', ht⟩
  · rintro ⟨t', ht⟩
    exact ⟨t', ht, likeMatch_lone_pct t'⟩

/-!
## Lemmas about ordering and search
-/

theorem sqlValLe_total (a b : PyVal) :
    sqlValLe a b = true ∨ sqlValLe b a = true := by
  cases a <;> cases b <;>
    first
      | exact Or.inl rfl
      | exact Or.inr rfl
      | exact (le_total _ _).imp decide_eq_true decide_eq_true

theorem sqlValLe_trans (a b c : PyVal) (h1 : sqlValLe a b = true)
    (h2 : sqlValLe b c = true) : sqlValLe a c = true := by
  cases a <;> cases b <;> cases c <;>
    first
      | rfl
      | exact absurd h1 Bool.false_ne_true
      | exact absurd h2 Bool.false_ne_true
      | exact decide_eq_true
          (le_trans (of_decide_eq_true h1) (of_decide_eq_true h2))

theorem rowDescLe_total (a b : Row) :
    rowDescLe a b = true ∨ rowDescLe b a = true := by
  rcases sqlValLe_total a.last_modified b.last_modified with h | h
  · exact Or.inr h
  · exact Or.inl h

theorem rowDescLe_trans (a b c : Row) (h1 : rowDescLe a b = true)
    (h2 : rowDescLe b c = true) : rowDescLe a c = true :=
  sqlValLe_trans _ _ _ h2 h1

theorem recDescLe_total (a b : RecRow) :
    recDescLe a b = true ∨ recDescLe b a = true := by
  simp only [recDescLe, decide_eq_true_eq]
  omega

theorem recDescLe_trans (a b c : RecRow) (h1 : recDescLe a b = true)
    (h2 : recDescLe b c = true) : recDescLe a c = true := by
  simp only [recDescLe, decide_eq_true_eq] at h1 h2 ⊢
  omega

/-- Membership in a search result is membership in the store together with
satisfaction of the generated WHERE conjunction. -/
theorem mem_search_files (db : DB) (crit : List (Col × PyVal)) (r : Row) :
    r ∈ search_files db crit ↔ r ∈ db.rows ∧ rowSat crit r = true := by
  rw [search_files, (sortBy_perm rowDescLe _).mem_iff, List.mem_filter]

/-- Search results come out sorted by `last_modified` descending. -/
theorem search_files_sorted (db : DB) (crit : List (Col × PyVal)) :
    (search_files db crit).Pairwise
      (fun a b => sqlValLe b.last_modified a.last_modified = true) :=
  sortBy_sorted rowDescLe
    (fun a b => (rowDescLe_total a b).symm.imp id id |>.symm.imp id id)
    rowDescLe_trans _

/-!
## Claim C9: revision parsing
-/

/-- C9: `parse_revision` tries, in order, the three case-insensitive patterns
`REV <alnum>`, `R<digits>`, `V<digits[.digits]>` against the uppercased
filename and returns the first capture group that matches, or `none` if none
match; in particular the four documented examples hold. -/
theorem C9_parse_revision :
    (parse_revision "Drawing REV B.pdf" = some "B" ∧
     parse_revision "Drawing R3.pdf" = some "3" ∧
     parse_revision "Drawing V2.1.pdf" = some "2.1" ∧
     parse_revision "Drawing.pdf" = none) ∧
    (∀ s g, reSearch capAtRev (s.data.map Char.toUpper) = some g →
      parse_revision s = some (String.mk g)) ∧
    (∀ s g, reSearch capAtRev (s.data.map Char.toUpper) = none →
      reSearch capAtR (s.data.map Char.toUpper) = some g →
      parse_revision s = some (String.mk g)) ∧
    (∀ s g, reSearch capAtRev (s.data.map Char.toUpper) = none →
      reSearch capAtR (s.data.map Char.toUpper) = none →
      reSearch capAtV (s.data.map Char.toUpper) = some g →
      parse_revision s = some (String.mk g)) ∧
    (∀ s, reSearch capAtRev (s.data.map Char.toUpper) = none →
      reSearch capAtR (s.data.map Char.toUpper) = none →
      reSearch capAtV (s.data.map Char.toUpper) = none →
      parse_revision s = none) := by
  refine ⟨⟨by decide, by decide, by decide, by decide⟩, ?_, ?_, ?_, ?_⟩
  · intro s g h
    simp [parse_revision, h]
  · intro s g h1 h2
    simp [parse_revision, h1, h2]
  · intro s g h1 h2 h3
    simp [parse_revision, h1, h2, h3]
  · intro s h1 h2 h3
    simp [parse_revision, h1, h2, h3]

/-- Witness: the no-match clause of `C9_parse_revision` applied to a concrete
filename without any revision marker. -/
theorem C9_parse_revision_witness : parse_revision "PLAN.txt" = none :=
  C9_parse_revision.2.2.2.2 "PLAN.txt" (by decide) (by decide) (by decide)

/-!
## Claim C6: missing scan root
-/

/-- C6: scanning a root that does not exist fails fast: the call returns
failure and the store state afterwards equals the state before — no read or
write happens. -/
theorem C6_scan_missing_root (db : DB) (F : Folder) (ts : String)
    (h : F.present = false) :
    scan_folder db F ts = ⟨db, false, [], []⟩ := by
  simp [scan_folder, h]

/-- Witness: `C6_scan_missing_root` at a concrete absent root. -/
theorem C6_scan_missing_root_witness :
    scan_folder exDb0 exFolderMissing "t" = ⟨exDb0, false, [], []⟩ :=
  C6_scan_missing_root exDb0 exFolderMissing "t" rfl

/-!
## Claim C10: empty fields mapping
-/

/-- C10: calling either update operation with an empty fields mapping raises
nothing to the caller: the malformed statement's error is caught inside the
store, the call returns failure, and the catalog is unchanged. -/
theorem C10_empty_update (db : DB) (ident : PyVal) (p : String) :
    update_file_metadata db ident [] = (db, false) ∧
    update_file_metadata_by_path db p [] = (db, false) := by
  exact ⟨rfl, rfl⟩

/-!
## Claim C7: update result semantics
-/

/-- C7 as stated is false: updating by surrogate key against a store in which
no row matches the identity still returns `True`. -/
theorem C7_counterexample :
    (update_file_metadata exDb0 (.vInt 1) [(Col.notes, .vStr "x")]).2 = true ∧
    ¬∃ r ∈ exDb0.rows, idMatch r.file_id (adapt (.vInt 1)) = true := by
  exact ⟨rfl, by decide⟩

/-- C7 amended: the by-path update returns `True` exactly when the mapping is
non-empty, no matched row would have a NOT NULL column (`file_path`,
`file_name`) rewritten to NULL, and some row matches the path (it checks
`rowcount`); the by-key update returns `True` exactly when the mapping is
non-empty and no matched row would violate those NOT NULL constraints,
regardless of whether any row matched; on an empty mapping, or on a NOT NULL
violation, the caught `sqlite3` error yields `False`. -/
theorem C7_update_result (db : DB) (ident : PyVal) (p : String)
    (flds : List (Col × PyVal)) :
    ((update_file_metadata_by_path db p flds).2 = true ↔
      flds ≠ [] ∧
      (∀ r ∈ db.rows, pathMatch r.file_path p = true →
        rowNotNullOk (applyFields r flds) = true) ∧
      ∃ r ∈ db.rows, pathMatch r.file_path p = true) ∧
    ((update_file_metadata db ident flds).2 = true ↔
      flds ≠ [] ∧
      ∀ r ∈ db.rows, idMatch r.file_id (adapt ident) = true →
        rowNotNullOk (applyFields r flds) = true) := by
  constructor
  · rw [update_file_metadata_by_path]
    cases flds with
    | nil => simp
    | cons a l =>
      rw [if_neg (by simp)]
      split
      · rename_i h
        rcases List.any_eq_true.mp h with ⟨r, hr, hc⟩
        rw [Bool.and_eq_true] at hc
        obtain ⟨hm, hnok⟩ := hc
        refine iff_of_false (by simp) ?_
        rintro ⟨-, hall, -⟩
        have h1 := hall r hr hm
        rw [Bool.not_eq_true'] at hnok
        rw [h1] at hnok
        exact Bool.noConfusion hnok
      · rename_i h
        have hall : ∀ r ∈ db.rows, pathMatch r.file_path p = true →
            rowNotNullOk (applyFields r (a :: l)) = true := by
          intro r hr hm
          have hne := List.any_eq_false.mp (Bool.not_eq_true _ ▸ h) r hr
          cases hok : rowNotNullOk (applyFields r (a :: l)) with
          | true => rfl
          | false =>
            refine absurd ?_ hne
            rw [Bool.and_eq_true]
            exact ⟨hm, by rw [Bool.not_eq_true']; exact hok⟩
        show db.rows.any (fun r => pathMatch r.file_path p) = true ↔ _
        rw [List.any_eq_true]
        constructor
        · intro hex
          exact ⟨List.cons_ne_nil a l, hall, hex⟩
        · rintro ⟨-, -, hex⟩
          exact hex
  · rw [update_file_metadata]
    cases flds with
    | nil => simp
    | cons a l =>
      rw [if_neg (by simp)]
      split
      · rename_i h
        rcases List.any_eq_true.mp h with ⟨r, hr, hc⟩
        rw [Bool.and_eq_true] at hc
        obtain ⟨hm, hnok⟩ := hc
        refine iff_of_false (by simp) ?_
        rintro ⟨-, hall⟩
        have h1 := hall r hr hm
        rw [Bool.not_eq_true'] at hnok
        rw [h1] at hnok
        exact Bool.noConfusion hnok
      · rename_i h
        refine iff_of_true rfl ⟨List.cons_ne_nil a l, ?_⟩
        intro r hr hm
        have hne := List.any_eq_false.mp (Bool.not_eq_true _ ▸ h) r hr
        cases hok : rowNotNullOk (applyFields r (a :: l)) with
        | true => rfl
        | false =>
          refine absurd ?_ hne
          rw [Bool.and_eq_true]
          exact ⟨hm, by rw [Bool.not_eq_true']; exact hok⟩

/-!
## Claim C2: the update-threshold path
-/

/-- C2: at the failing input — a tracked file whose on-disk modification time
is strictly newer than the stored value — the rescan leaves the store
entirely unchanged and the tracked row keeps its stale timestamp: no update
of the row happens, where the claim requires one.  (The comparison of the
fresh datetime with the stored text raises `TypeError`, and the update call
itself is keyed on `file_id` yet passed the file path.) -/
theorem C2_update_threshold_bug :
    dtLt exDt1 exDt2 = true ∧
    (scan_folder exDb1 exFolderNewer "2024-06-01 00:00:00").db = exDb1 ∧
    exDb1.rows.map Row.last_modified = [.vStr "2024-01-02 03:04:05"] := by
  refine ⟨by decide, by decide, by decide⟩

/-!
## Claim C3: processed-set accounting, counterexample part
-/

/-- C3 as stated is false: a path discovered by the enumeration whose
extraction fails is not recorded as processed, so it lands in the removed
set even though it was found on disk. -/
theorem C3_counterexample :
    exFolderBroken.files.map DiskFile.path = ["/jobs/a.pdf"] ∧
    (scan_folder exDb1 exFolderBroken "t").processed = [] ∧
    PyVal.vStr "/jobs/a.pdf" ∈ (scan_folder exDb1 exFolderBroken "t").removed := by
  refine ⟨rfl, by decide, by decide⟩

/-!
## Claim C5: search semantics, counterexample part
-/

/-- C5 as stated is false: with the criterion value `a_c`, whose underscore
is a `LIKE` metacharacter, the search returns the row with department `abc`,
which the case-insensitive-substring reading excludes. -/
theorem C5_counterexample :
    ¬(∀ r, r ∈ search_files exDbDept exCritU ↔
        r ∈ exDbDept.rows ∧ rowSatSpec exCritU r = true) := by
  intro h
  have h1 : exRowDept ∈ search_files exDbDept exCritU := by decide
  exact absurd ((h exRowDept).mp h1).2 (by decide)

/-!
## Lemmas about the existing-files dictionary
-/

theorem keys_dictInsert (d : List (PyVal × PyVal)) (k v : PyVal) :
    (dictInsert d k v).map Prod.fst = d.map Prod.fst ∨
    (dictInsert d k v).map Prod.fst = d.map Prod.fst ++ [k] := by
  rw [dictInsert]
  split
  · left
    rw [List.map_map]
    refine List.map_congr_left fun kv hkv => ?_
    simp only [Function.comp_apply]
    split <;> rfl
  · right
    simp

theorem key_mem_dictInsert (d : List (PyVal × PyVal)) (k v : PyVal) :
    k ∈ (dictInsert d k v).map Prod.fst := by
  rw [dictInsert]
  split
  · rename_i h
    rcases List.any_eq_true.mp h with ⟨kv, hkv, he⟩
    have : kv.1 = k := by simpa using he
    rw [List.map_map]
    refine List.mem_map.mpr ⟨kv, hkv, ?_⟩
    simp [this]
  · simp

theorem key_mem_dictInsert_mono (d : List (PyVal × PyVal)) (k v j : PyVal)
    (hj : j ∈ d.map Prod.fst) : j ∈ (dictInsert d k v).map Prod.fst := by
  rcases keys_dictInsert d k v with h | h
  · rw [h]; exact hj
  · rw [h]; exact List.mem_append_left _ hj

theorem keys_dictInsert_subset (d : List (PyVal × PyVal)) (k v j : PyVal)
    (hj : j ∈ (dictInsert d k v).map Prod.fst) :
    j ∈ d.map Prod.fst ∨ j = k := by
  rcases keys_dictInsert d k v with h | h
  · rw [h] at hj; exact Or.inl hj
  · rw [h] at hj
    rcases List.mem_append.mp hj with hj | hj
    · exact Or.inl hj
    · exact Or.inr (by simpa using hj)

theorem keys_fold_mono (rs : List Row) (d : List (PyVal × PyVal)) (j : PyVal)
    (hj : j ∈ d.map Prod.fst) :
    j ∈ ((rs.foldl (fun d r => dictInsert d r.file_path r.last_modified) d).map
      Prod.fst) := by
  induction rs generalizing d with
  | nil => exact hj
  | cons r rs ih =>
    exact ih _ (key_mem_dictInsert_mono _ _ _ _ hj)

theorem mem_fold_keys (rs : List Row) :
    ∀ (d : List (PyVal × PyVal)) (r : Row), r ∈ rs →
      r.file_path ∈
        ((rs.foldl (fun d r => dictInsert d r.file_path r.last_modified) d).map
          Prod.fst) := by
  induction rs with
  | nil =>
    intro d r hr
    exact absurd hr (List.not_mem_nil r)
  | cons a rs ih =>
    intro d r hr
    rcases List.mem_cons.mp hr with rfl | hr
    · exact keys_fold_mono rs _ _ (key_mem_dictInsert _ _ _)
    · exact ih _ r hr

theorem keys_fold_from (rs : List Row) :
    ∀ (d : List (PyVal × PyVal)) (j : PyVal),
      j ∈ ((rs.foldl
        (fun d r => dictInsert d r.file_path r.last_modified) d).map Prod.fst) →
      j ∈ d.map Prod.fst ∨ ∃ r ∈ rs, r.file_path = j := by
  induction rs with
  | nil =>
    intro d j hj
    exact Or.inl hj
  | cons a rs ih =>
    intro d j hj
    rcases ih _ _ hj with h | ⟨r, hr, hrj⟩
    · rcases keys_dictInsert_subset _ _ _ _ h with h | rfl
      · exact Or.inl h
      · exact Or.inr ⟨a, List.mem_cons_self a rs, rfl⟩
    · exact Or.inr ⟨r, List.mem_cons_of_mem a hr, hrj⟩

theorem dictGet_ne_none_of_key (d : List (PyVal × PyVal)) (s : String)
    (h : PyVal.vStr s ∈ d.map Prod.fst) : dictGet d s ≠ none := by
  rw [dictGet]
  rcases List.mem_map.mp h with ⟨kv, hkv, hfst⟩
  cases hfind : d.find? fun kv => pyKeyEq kv.1 s with
  | some kv' => simp
  | none =>
    have := List.find?_eq_none.mp hfind kv hkv
    rw [hfst] at this
    simp [pyKeyEq] at this

theorem dictGet_some_key (d : List (PyVal × PyVal)) (s : String) (v : PyVal)
    (h : dictGet d s = some v) : PyVal.vStr s ∈ d.map Prod.fst := by
  rw [dictGet] at h
  cases hfind : d.find? fun kv => pyKeyEq kv.1 s with
  | none => rw [hfind] at h; exact absurd h (by simp)
  | some kv =>
    have hmem := List.mem_of_find?_eq_some hfind
    have hkey := List.find?_some hfind
    have : kv.1 = PyVal.vStr s := by
      cases hk : kv.1 <;> rw [hk] at hkey <;> simp [pyKeyEq] at hkey
      simp [hkey]
    exact List.mem_map.mpr ⟨kv, hmem, this⟩

/-- Membership in the key set of the snapshot characterises tracked rows. -/
theorem keys_getExisting (db : DB) (fp : String) (j : PyVal) :
    j ∈ (getExistingFiles db fp).map Prod.fst ↔
      ∃ r ∈ db.rows, r.file_path = j ∧
        rowSat [(Col.file_path, .vStr fp)] r = true := by
  rw [getExistingFiles]
  constructor
  · intro h
    rcases keys_fold_from _ _ _ h with h | ⟨r, hr, hrj⟩

    · exact absurd h (by simp)
    · rcases (mem_search_files db _ r).mp hr with ⟨hmem, hsat⟩
      exact ⟨r, hmem, hrj, hsat⟩
  · rintro ⟨r, hr, hrj, hsat⟩
    rw [← hrj]
    exact mem_fold_keys _ _ r ((mem_search_files db _ r).mpr ⟨hr, hsat⟩)

/-!
## Lemmas about the scan loop
-/

/-- The misdirected `WHERE file_id = ?` update with a non-numeric path as the
identity changes nothing. -/
theorem update_noop (db : DB) (p : String) (flds : List (Col × PyVal))
    (hnp : ∀ n : Nat, p ≠ toString n) :
    (update_file_metadata db (.vStr p) flds).1 = db := by
  rw [update_file_metadata]
  split
  · rfl
  · rw [if_neg ?hno]
    case hno =>
      intro h
      rcases List.any_eq_true.mp h with ⟨r, hr, hc⟩
      have hid : idMatch r.file_id (adapt (PyVal.vStr p)) = false :=
        beq_eq_false_iff_ne.mpr (hnp r.file_id)
      rw [hid] at hc
      rw [Bool.and_eq_true] at hc
      exact Bool.noConfusion hc.1
    show { db with rows := _ } = db
    have hmap : (db.rows.map fun r =>
        if idMatch r.file_id (adapt (.vStr p)) then applyFields r flds else r) =
        db.rows := by
      have : ∀ r ∈ db.rows,
          (if idMatch r.file_id (adapt (.vStr p)) then applyFields r flds
            else r) = r := by
        intro r hr
        have : idMatch r.file_id (adapt (.vStr p)) = false := by
          show (p == toString r.file_id) = false
          exact beq_eq_false_iff_ne.mpr (hnp r.file_id)
        rw [this]
        simp
      rw [List.map_congr_left this]
      simp
    rw [hmap]

/-- One loop body either leaves the store untouched or appends exactly the
freshly built row (the new-path insert branch). -/
theorem scanStep_cases (ex : List (PyVal × PyVal)) (ts : String)
    (acc : DB × List String) (f : DiskFile)
    (hnp : ∀ n : Nat, f.path ≠ toString n) :
    (scanStep ex ts acc f).1 = acc.1 ∨
    ∃ md, extractMetadata f = some md ∧ dictGet ex f.path = none ∧
      (scanStep ex ts acc f).1 =
        { acc.1 with
            rows := acc.1.rows ++
              [applyFields (blankRow acc.1.nextId ts) (mdFields md)],
            nextId := acc.1.nextId + 1 } := by
  cases hext : extractMetadata f with
  | none => exact Or.inl (by simp [scanStep, hext])
  | some md =>
    cases hdg : dictGet ex f.path with
    | some stored =>
      cases hgt : pyGtDt md.last_modified stored with
      | none => exact Or.inl (by simp [scanStep, hext, hdg, hgt])
      | some b =>
        cases b with
        | true =>
          refine Or.inl ?_
          have h1 : (scanStep ex ts acc f).1 =
              (update_file_metadata acc.1 (.vStr f.path) (mdFields md)).1 := by
            simp [scanStep, hext, hdg, hgt]
          rw [h1, update_noop _ _ _ hnp]
        | false => exact Or.inl (by simp [scanStep, hext, hdg, hgt])
    | none =>
      refine Or.inr ⟨md, rfl, rfl, ?_⟩
      have h1 : (scanStep ex ts acc f).1 =
          (add_file_metadata acc.1 ts (mdFields md)).1 := by
        simp [scanStep, hext, hdg]
      rw [h1]
      rfl

/-- One loop body either keeps the processed list or appends this path. -/
theorem scanStep_processed (ex : List (PyVal × PyVal)) (ts : String)
    (acc : DB × List String) (f : DiskFile) :
    (scanStep ex ts acc f).2 = acc.2 ∨
    (scanStep ex ts acc f).2 = acc.2 ++ [f.path] := by
  cases hext : extractMetadata f with
  | none => exact Or.inl (by simp [scanStep, hext])
  | some md =>
    cases hdg : dictGet ex f.path with
    | some stored =>
      cases hgt : pyGtDt md.last_modified stored with
      | none => exact Or.inl (by simp [scanStep, hext, hdg, hgt])
      | some b =>
        cases b
        · exact Or.inr (by simp [scanStep, hext, hdg, hgt])
        · exact Or.inr (by simp [scanStep, hext, hdg, hgt])
    | none => exact Or.inr (by simp [scanStep, hext, hdg])

/-- Over the whole walk the store only gains rows at the end, and the recent
folders are untouched. -/
theorem scanFold_extend (ex : List (PyVal × PyVal)) (ts : String)
    (files : List DiskFile)
    (hnp : ∀ f ∈ files, ∀ n : Nat, f.path ≠ toString n) :
    ∀ acc : DB × List String,
      ∃ extra, (files.foldl (scanStep ex ts) acc).1.rows = acc.1.rows ++ extra ∧
        (files.foldl (scanStep ex ts) acc).1.recents = acc.1.recents := by
  induction files with
  | nil => exact fun acc => ⟨[], by simp⟩
  | cons g files ih =>
    intro acc
    have hg : ∀ n : Nat, g.path ≠ toString n := hnp g (List.mem_cons_self g files)
    have ih' := ih (fun f hf => hnp f (List.mem_cons_of_mem g hf))
      (scanStep ex ts acc g)
    rcases ih' with ⟨extra, hrows, hrec⟩
    rcases scanStep_cases ex ts acc g hg with h | ⟨md, -, -, h⟩
    · exact ⟨extra, by rw [List.foldl_cons, hrows, h],
        by rw [List.foldl_cons, hrec, h]⟩
    · refine ⟨applyFields (blankRow acc.1.nextId ts) (mdFields md) :: extra,
        ?_, ?_⟩
      · rw [List.foldl_cons, hrows, h]
        simp
      · rw [List.foldl_cons, hrec, h]

/-- Unfolding of a scan over a present root. -/
theorem scan_folder_eq (db : DB) (F : Folder) (ts : String)
    (h : F.present = true) :
    scan_folder db F ts =
      ⟨(F.files.foldl (scanStep (getExistingFiles db F.path) ts) (db, [])).1,
       true,
       (F.files.foldl (scanStep (getExistingFiles db F.path) ts) (db, [])).2,
       ((getExistingFiles db F.path).map Prod.fst).filter fun k =>
         !(F.files.foldl (scanStep (getExistingFiles db F.path) ts)
             (db, [])).2.any fun p => pyKeyEq k p⟩ := by
  rw [scan_folder]
  simp [h]

/-- A per-file body that runs to completion records its path. -/
theorem scanStep_succeeds (ex : List (PyVal × PyVal)) (ts : String)
    (acc : DB × List String) (f : DiskFile) (hss : stepSucceeds ex f) :
    (scanStep ex ts acc f).2 = acc.2 ++ [f.path] := by
  obtain ⟨md, hmd, hcmp⟩ := hss
  cases hdg : dictGet ex f.path with
  | none => simp [scanStep, hmd, hdg]
  | some stored =>
    have hne := hcmp stored hdg
    cases hgt : pyGtDt md.last_modified stored with
    | none => exact absurd hgt hne
    | some b => cases b <;> simp [scanStep, hmd, hdg, hgt]

theorem scanFold_processed_mono (ex : List (PyVal × PyVal)) (ts : String)
    (files : List DiskFile) :
    ∀ acc : DB × List String,
      ∃ ext, (files.foldl (scanStep ex ts) acc).2 = acc.2 ++ ext := by
  induction files with
  | nil => exact fun acc => ⟨[], by simp⟩
  | cons g files ih =>
    intro acc
    rcases ih (scanStep ex ts acc g) with ⟨ext, hext⟩
    rcases scanStep_processed ex ts acc g with h | h
    · exact ⟨ext, by rw [List.foldl_cons, hext, h]⟩
    · exact ⟨g.path :: ext, by rw [List.foldl_cons, hext, h]; simp⟩

theorem scanFold_processed_mem (ex : List (PyVal × PyVal)) (ts : String)
    (files : List DiskFile) :
    ∀ (acc : DB × List String) (f : DiskFile), f ∈ files → stepSucceeds ex f →
      f.path ∈ (files.foldl (scanStep ex ts) acc).2 := by
  induction files with
  | nil =>
    intro acc f hf
    exact absurd hf (List.not_mem_nil f)
  | cons g files ih =>
    intro acc f hf hss
    rcases List.mem_cons.mp hf with rfl | hf
    · rcases scanFold_processed_mono ex ts files (scanStep ex ts acc f) with
        ⟨ext, hext⟩
      rw [List.foldl_cons, hext, scanStep_succeeds ex ts acc f hss]
      simp
    · exact ih (scanStep ex ts acc g) f hf hss

theorem scanFold_processed_sub (ex : List (PyVal × PyVal)) (ts : String)
    (files : List DiskFile) :
    ∀ (acc : DB × List String) (q : String),
      q ∈ (files.foldl (scanStep ex ts) acc).2 →
      q ∈ acc.2 ∨ ∃ f ∈ files, q = f.path := by
  induction files with
  | nil =>
    intro acc q hq
    exact Or.inl hq
  | cons g files ih =>
    intro acc q hq
    rcases ih (scanStep ex ts acc g) q hq with h | ⟨f, hf, rfl⟩
    · rcases scanStep_processed ex ts acc g with h' | h'
      · rw [h'] at h
        exact Or.inl h
      · rw [h'] at h
        rcases List.mem_append.mp h with h | h
        · exact Or.inl h
        · exact Or.inr ⟨g, List.mem_cons_self g files, by simpa using h⟩
    · exact Or.inr ⟨f, List.mem_cons_of_mem g hf, rfl⟩

/-!
## Claim C3: processed-set accounting, amended part
-/

/-- C3 amended: the removed set is exactly the snapshot keys minus the
processed paths, and every discovered path whose per-file processing runs to
completion without an exception is recorded as processed; a path whose
processing raises (extraction failure, or the type error in the timestamp
comparison) is skipped and may therefore land in the removed set even though
it was discovered — see the counterexample. -/
theorem C3_processed (db : DB) (F : Folder) (ts : String)
    (hpres : F.present = true) :
    ((scan_folder db F ts).removed =
      ((getExistingFiles db F.path).map Prod.fst).filter fun k =>
        !(scan_folder db F ts).processed.any fun p => pyKeyEq k p) ∧
    (∀ f ∈ F.files, stepSucceeds (getExistingFiles db F.path) f →
      f.path ∈ (scan_folder db F ts).processed) := by
  rw [scan_folder_eq db F ts hpres]
  exact ⟨rfl, fun f hf hss =>
    scanFold_processed_mem (getExistingFiles db F.path) ts F.files (db, [])
      f hf hss⟩

/-- Witness: `C3_processed` at the concrete first scan; the scanned file is
recorded as processed. -/
theorem C3_processed_witness :
    "/jobs/a.pdf" ∈ (scan_folder exDb0 exFolder "t").processed := by
  refine (C3_processed exDb0 exFolder "t" rfl).2 exFileA (by decide)
    ⟨_, rfl, ?_⟩
  intro stored h
  rw [show dictGet (getExistingFiles exDb0 exFolder.path) exFileA.path = none
    from rfl] at h
  exact absurd h (by simp)

/-!
## Decimal representations consist of digits
-/

theorem digitChar_isDigit (m : Nat) (h : m < 10) :
    (Nat.digitChar m).isDigit = true := by
  interval_cases m <;> decide

theorem toDigitsCore_digits (fuel : Nat) :
    ∀ (n : Nat) (ds : List Char), (∀ c ∈ ds, c.isDigit = true) →
      ∀ c ∈ Nat.toDigitsCore 10 fuel n ds, c.isDigit = true := by
  induction fuel with
  | zero =>
    intro n ds hds c hc
    exact hds c hc
  | succ fuel ih =>
    intro n ds hds c hc
    rw [Nat.toDigitsCore] at hc
    have hd : ∀ c ∈ Nat.digitChar (n % 10) :: ds, c.isDigit = true := by
      intro c hc
      rcases List.mem_cons.mp hc with rfl | hc
      · exact digitChar_isDigit _ (Nat.mod_lt _ (by omega))
      · exact hds c hc
    by_cases h : n / 10 = 0
    · rw [if_pos h] at hc
      exact hd c hc
    · rw [if_neg h] at hc
      exact ih _ _ hd c hc

theorem natStr_all_digit (n : Nat) : ∀ c ∈ (toString n).data, c.isDigit = true := by
  intro c hc
  have : (toString n).data = Nat.toDigitsCore 10 (n + 1) n [] := rfl
  rw [this] at hc
  exact toDigitsCore_digits (n + 1) n [] (by simp) c hc

/-- A string containing a non-digit character is not the decimal spelling of
any natural number. -/
theorem ne_natStr_of_nondigit (s : String) (c : Char) (hc : c ∈ s.data)
    (hd : c.isDigit = false) : ∀ n : Nat, s ≠ toString n := by
  intro n h
  subst h
  rw [natStr_all_digit n c hc] at hd
  exact Bool.noConfusion hd

/-!
## Claim C4: removed files are logged, never deleted
-/

theorem lowStr_data (s : String) : (lowStr s).data = s.data.map Char.toLower :=
  rfl

theorem lowStr_append (a b : String) :
    (lowStr (a ++ b)).data = (lowStr a).data ++ (lowStr b).data := by
  simp [lowStr_data, String.data_append]

/-- The lowered search pattern splits into the two wildcards around the
lowered value. -/
theorem lowPat_decomp (x : String) :
    (lowStr ("%" ++ x ++ "%")).data = '%' :: ((lowStr x).data ++ ['%']) := by
  rw [lowStr_data, String.data_append, String.data_append]
  simp only [List.map_append, lowStr_data]
  rfl

/-- A row whose path extends the scanned root satisfies the snapshot query. -/
theorem rowSat_of_pathPre (r : Row) (s base : String)
    (hp : r.file_path = .vStr s) (hpre : ∃ rest, s = base ++ rest) :
    rowSat [(Col.file_path, .vStr base)] r = true := by
  rcases hpre with ⟨rest, rfl⟩
  rw [rowSat]
  simp only [List.all_cons, List.all_nil, Bool.and_true]
  rw [critClause]
  by_cases hf : isFalsy (PyVal.vStr base) = true
  · rw [if_pos hf]
  · rw [if_neg hf,
      if_neg (by rw [show isDateCol Col.file_path = false from rfl]; simp)]
    rw [show getCol r Col.file_path = r.file_path from rfl, hp]
    show likeMatch (lowStr ("%" ++ pyFormat (.vStr base) ++ "%")).data
      (lowStr (base ++ rest)).data = true
    rw [show pyFormat (PyVal.vStr base) = base from rfl, lowPat_decomp,
      lowStr_append]
    exact likeMatch_of_middle (lowStr base).data [] (lowStr rest).data

/-- C4: when a tracked file of the scanned root is absent from disk, the scan
still reports success, the whole pre-scan catalog survives unmodified (rows
are only ever appended, never deleted or rewritten), the tracked row itself
is still present, and its path is reported in the removed set that
`_handle_removed_files` logs. -/
theorem C4_removed_not_deleted (db : DB) (F : Folder) (ts : String)
    (p₀ : String) (r₀ : Row) (hpres : F.present = true) (hnum : noNumPath F)
    (hr : r₀ ∈ db.rows) (hp : r₀.file_path = .vStr p₀)
    (hsat : rowSat [(Col.file_path, .vStr F.path)] r₀ = true)
    (habs : ∀ f ∈ F.files, f.path ≠ p₀) :
    (scan_folder db F ts).ok = true ∧
    (∃ extra, (scan_folder db F ts).db.rows = db.rows ++ extra) ∧
    r₀ ∈ (scan_folder db F ts).db.rows ∧
    PyVal.vStr p₀ ∈ (scan_folder db F ts).removed := by
  rw [scan_folder_eq db F ts hpres]
  obtain ⟨extra, hrows, -⟩ :=
    scanFold_extend (getExistingFiles db F.path) ts F.files hnum (db, [])
  refine ⟨rfl, ⟨extra, hrows⟩, ?_, ?_⟩
  · show r₀ ∈ (F.files.foldl (scanStep (getExistingFiles db F.path) ts)
      (db, [])).1.rows
    rw [hrows]
    exact List.mem_append_left _ hr
  · apply List.mem_filter.mpr
    refine ⟨(keys_getExisting db F.path _).mpr ⟨r₀, hr, hp, hsat⟩, ?_⟩
    rw [Bool.not_eq_true']
    apply List.any_eq_false.mpr
    intro q hq
    rcases scanFold_processed_sub (getExistingFiles db F.path) ts F.files
        (db, []) q hq with h | ⟨f, hf, rfl⟩
    · exact absurd h (List.not_mem_nil q)
    · show ¬(p₀ == f.path) = true
      exact fun hbe => habs f hf (beq_iff_eq.mp hbe).symm

/-- Witness: `C4_removed_not_deleted` at the concrete store tracking
`/jobs/gone.pdf` while the folder only holds `/jobs/a.pdf`. -/
theorem C4_removed_not_deleted_witness :
    (scan_folder exDbGone exFolder "t").ok = true ∧
    (∃ extra, (scan_folder exDbGone exFolder "t").db.rows =
      exDbGone.rows ++ extra) ∧
    exRowGone ∈ (scan_folder exDbGone exFolder "t").db.rows ∧
    PyVal.vStr "/jobs/gone.pdf" ∈ (scan_folder exDbGone exFolder "t").removed := by
  refine C4_removed_not_deleted exDbGone exFolder "t" "/jobs/gone.pdf"
    exRowGone rfl ?_ (by decide) rfl (by decide) (by decide)
  intro f hf
  have : f = exFileA := by
    rcases List.mem_cons.mp hf with rfl | h
    · rfl
    · exact absurd h (List.not_mem_nil f)
  subst this
  exact ne_natStr_of_nondigit _ '/' (by decide) (by decide)

/-!
## Claim C1: idempotent re-scan
-/

theorem extract_file_path (f : DiskFile) (md : Metadata)
    (h : extractMetadata f = some md) : md.file_path = f.path := by
  rw [extractMetadata] at h
  by_cases hs : f.statOk = true
  · rw [if_pos hs] at h
    cases Option.some.inj h
    rfl
  · rw [if_neg hs] at h
    exact absurd h (by simp)

theorem applied_file_path (nid : Nat) (ts : String) (md : Metadata) :
    (applyFields (blankRow nid ts) (mdFields md)).file_path =
      .vStr md.file_path := rfl

/-- A new path inserted by the walk is present in the final rows. -/
theorem scanFold_mem_inserted (ex : List (PyVal × PyVal)) (ts : String)
    (files : List DiskFile) :
    ∀ (acc : DB × List String) (f : DiskFile) (md : Metadata),
      (∀ f' ∈ files, ∀ n : Nat, f'.path ≠ toString n) → f ∈ files →
      extractMetadata f = some md → dictGet ex f.path = none →
      ∃ r ∈ (files.foldl (scanStep ex ts) acc).1.rows,
        r.file_path = .vStr f.path := by
  induction files with
  | nil =>
    intro acc f md hnp hf
    exact absurd hf (List.not_mem_nil f)
  | cons g files ih =>
    intro acc f md hnp hf hmd hdg
    rcases List.mem_cons.mp hf with rfl | hf
    · have hstep : (scanStep ex ts acc f).1.rows =
          acc.1.rows ++ [applyFields (blankRow acc.1.nextId ts) (mdFields md)] := by
        simp [scanStep, hmd, hdg, add_file_metadata, mdFields, rowNotNullOk,
          applyFields, blankRow, setCol, adapt]
      obtain ⟨extra, hrows, -⟩ := scanFold_extend ex ts files
        (fun f' hf' => hnp f' (List.mem_cons_of_mem f hf'))
        (scanStep ex ts acc f)
      refine ⟨applyFields (blankRow acc.1.nextId ts) (mdFields md), ?_, ?_⟩
      · rw [List.foldl_cons, hrows, hstep]
        simp
      · rw [applied_file_path, extract_file_path f md hmd]
    · exact ih (scanStep ex ts acc g) f md
        (fun f' hf' => hnp f' (List.mem_cons_of_mem g hf')) hf hmd hdg

/-- If every file that extracts successfully is already tracked in the
snapshot, the walk leaves the store untouched. -/
theorem scanFold_db_const (ex : List (PyVal × PyVal)) (ts : String)
    (files : List DiskFile) :
    ∀ acc : DB × List String,
      (∀ f ∈ files, ∀ n : Nat, f.path ≠ toString n) →
      (∀ f ∈ files, ∀ md, extractMetadata f = some md →
        dictGet ex f.path ≠ none) →
      (files.foldl (scanStep ex ts) acc).1 = acc.1 := by
  induction files with
  | nil =>
    intro acc hnp hlk
    rfl
  | cons g files ih =>
    intro acc hnp hlk
    rw [List.foldl_cons,
      ih (scanStep ex ts acc g)
        (fun f hf => hnp f (List.mem_cons_of_mem g hf))
        (fun f hf => hlk f (List.mem_cons_of_mem g hf))]
    rcases scanStep_cases ex ts acc g
        (hnp g (List.mem_cons_self g files)) with h | ⟨md, hmd, hdg, -⟩
    · exact h
    · exact absurd hdg (hlk g (List.mem_cons_self g files) md hmd)

/-- C1: re-scanning a folder whose files are unchanged on disk leaves the
catalog contents of the first scan entirely unchanged — no rows are inserted
and no write modifies any row.  (`underRoot` and `noNumPath` hold of any real
`os.walk` enumeration: joined paths extend the root and contain a
separator.) -/
theorem C1_rescan_idempotent (db₀ : DB) (F : Folder) (ts₁ ts₂ : String)
    (hpres : F.present = true) (hroot : underRoot F) (hnum : noNumPath F) :
    (scan_folder (scan_folder db₀ F ts₁).db F ts₂).db =
      (scan_folder db₀ F ts₁).db := by
  have hdb1 : (scan_folder db₀ F ts₁).db =
      (F.files.foldl (scanStep (getExistingFiles db₀ F.path) ts₁) (db₀, [])).1 := by
    rw [scan_folder_eq db₀ F ts₁ hpres]
  rw [scan_folder_eq _ F ts₂ hpres]
  show (F.files.foldl
      (scanStep (getExistingFiles (scan_folder db₀ F ts₁).db F.path) ts₂)
      ((scan_folder db₀ F ts₁).db, [])).1 = (scan_folder db₀ F ts₁).db
  apply scanFold_db_const _ ts₂ F.files _ hnum
  intro f hf md hmd
  apply dictGet_ne_none_of_key
  apply (keys_getExisting _ F.path _).mpr
  by_cases hk : PyVal.vStr f.path ∈ (getExistingFiles db₀ F.path).map Prod.fst
  · rcases (keys_getExisting db₀ F.path _).mp hk with ⟨r, hr, hrp, hrsat⟩
    obtain ⟨extra, hrows, -⟩ := scanFold_extend (getExistingFiles db₀ F.path)
      ts₁ F.files hnum (db₀, [])
    refine ⟨r, ?_, hrp, hrsat⟩
    rw [hdb1, hrows]
    exact List.mem_append_left _ hr
  · have hdg0 : dictGet (getExistingFiles db₀ F.path) f.path = none := by
      cases hd : dictGet (getExistingFiles db₀ F.path) f.path with
      | none => rfl
      | some v => exact absurd (dictGet_some_key _ _ _ hd) hk
    obtain ⟨r, hrmem, hrp⟩ := scanFold_mem_inserted
      (getExistingFiles db₀ F.path) ts₁ F.files (db₀, []) f md hnum hf hmd hdg0
    refine ⟨r, ?_, hrp, rowSat_of_pathPre r f.path F.path hrp (hroot f hf)⟩
    rw [hdb1]
    exact hrmem

/-- Witness: `C1_rescan_idempotent` at the concrete one-file folder. -/
theorem C1_rescan_idempotent_witness :
    (scan_folder (scan_folder exDb0 exFolder "t1").db exFolder "t2").db =
      (scan_folder exDb0 exFolder "t1").db := by
  refine C1_rescan_idempotent exDb0 exFolder "t1" "t2" rfl ?_ ?_
  · intro f hf
    have hfa : f = exFileA := by
      rcases List.mem_cons.mp hf with rfl | h
      · rfl
      · exact absurd h (List.not_mem_nil f)
    subst hfa
    exact ⟨"/a.pdf", by decide⟩
  · intro f hf
    have hfa : f = exFileA := by
      rcases List.mem_cons.mp hf with rfl | h
      · rfl
      · exact absurd h (List.not_mem_nil f)
    subst hfa
    exact ne_natStr_of_nondigit _ '/' (by decide) (by decide)

/-!
## Claim C5: search semantics, amended part
-/

theorem critClause_eq_spec (r : Row) (c : Col) (v : PyVal)
    (hw : wildFree (lowStr (pyFormat v)).data = true) :
    critClause r c v = critClauseSpec r c v := by
  rw [critClause, critClauseSpec]
  by_cases hf : isFalsy v = true
  · rw [if_pos hf, if_pos hf]
  · rw [if_neg hf, if_neg hf]
    by_cases hd : isDateCol c = true
    · rw [if_pos hd, if_pos hd]
    · rw [if_neg hd, if_neg hd]
      cases hsl : sqlLower (getCol r c) with
      | none => rfl
      | some s =>
        show likeMatch (lowStr ("%" ++ pyFormat v ++ "%")).data s.data =
          containsL (lowStr (pyFormat v)).data s.data
        rw [lowPat_decomp]
        cases hc : containsL (lowStr (pyFormat v)).data s.data with
        | false =>
          rw [← Bool.not_eq_true]
          intro htrue
          rw [(likeMatch_substr_iff _ _ hw).mp htrue] at hc
          exact Bool.noConfusion hc
        | true => exact (likeMatch_substr_iff _ _ hw).mpr hc

theorem rowSat_eq_spec (crit : List (Col × PyVal)) (r : Row) (hw : critWf crit) :
    rowSat crit r = rowSatSpec crit r := by
  rw [rowSat, rowSatSpec]
  induction crit with
  | nil => rfl
  | cons kv crit ih =>
    rw [List.all_cons, List.all_cons,
      critClause_eq_spec r kv.1 kv.2 (hw kv (List.mem_cons_self kv crit)),
      ih fun kv' h' => hw kv' (List.mem_cons_of_mem kv h')]

/-- C5 amended: for criteria whose rendered values contain no `LIKE`
metacharacter (`%` or `_`), the search returns exactly the records satisfying
the conjunction of all non-empty criteria — text fields by case-insensitive
substring, the temporal fields by calendar-date equality, with empty values
and the `YYYY-MM-DD` sentinel skipped — ordered by `last_modified`
descending.  For values with metacharacters the text match is SQL `LIKE`
instead of substring (see the counterexample). -/
theorem C5_search_semantics (db : DB) (crit : List (Col × PyVal))
    (hw : critWf crit) :
    (∀ r, r ∈ search_files db crit ↔ r ∈ db.rows ∧ rowSatSpec crit r = true) ∧
    (search_files db crit).Pairwise
      (fun a b => sqlValLe b.last_modified a.last_modified = true) := by
  refine ⟨fun r => ?_, search_files_sorted db crit⟩
  rw [mem_search_files, rowSat_eq_spec crit r hw]

/-- Witness: `C5_search_semantics` at a concrete store and criterion. -/
theorem C5_search_semantics_witness :
    (∀ r, r ∈ search_files exDbDept exCritAB ↔
      r ∈ exDbDept.rows ∧ rowSatSpec exCritAB r = true) ∧
    (search_files exDbDept exCritAB).Pairwise
      (fun a b => sqlValLe b.last_modified a.last_modified = true) :=
  C5_search_semantics exDbDept exCritAB (by unfold critWf; decide)

/-!
## Claim C8: recent-folder cap
-/

theorem upsert_paths (db : DB) (p : String) (t : Nat) :
    ((upsertRecent db p t).recents.map RecRow.folder_path =
      db.recents.map RecRow.folder_path) ∨
    ((upsertRecent db p t).recents.map RecRow.folder_path =
      db.recents.map RecRow.folder_path ++ [p] ∧
      (upsertRecent db p t).recents = db.recents ++ [⟨db.nextFolderId, p, t⟩]) := by
  rw [upsertRecent]
  split
  · left
    rw [List.map_map]
    refine List.map_congr_left fun r hr => ?_
    simp only [Function.comp_apply]
    split <;> rfl
  · right
    simp

theorem upsert_paths_nodup (db : DB) (p : String) (t : Nat)
    (h : (db.recents.map RecRow.folder_path).Nodup) :
    (((upsertRecent db p t).recents.map RecRow.folder_path)).Nodup := by
  rw [upsertRecent]
  split
  · rw [List.map_map]
    have he : (db.recents.map (RecRow.folder_path ∘ fun r =>
        if r.folder_path == p then { r with last_accessed := t } else r)) =
        db.recents.map RecRow.folder_path := by
      refine List.map_congr_left fun r hr => ?_
      simp only [Function.comp_apply]
      split <;> rfl
    rw [he]
    exact h
  · rename_i hany
    have hp : p ∉ db.recents.map RecRow.folder_path := by
      intro hp
      rcases List.mem_map.mp hp with ⟨r, hr, hrp⟩
      exact hany (List.any_eq_true.mpr ⟨r, hr, by simp [hrp]⟩)
    simp only [List.map_append, List.map_cons, List.map_nil]
    rw [List.nodup_append]
    exact ⟨h, List.nodup_singleton p, by simpa using hp⟩

/-- The retained rows after the DELETE are exactly the five most recently
accessed rows of the post-upsert table (distinct paths assumed). -/
theorem keep_iff (l : List RecRow) (hk : (l.map RecRow.folder_path).Nodup)
    (r : RecRow) :
    (r ∈ l.filter fun r =>
        (((sortBy recDescLe l).take 5).map RecRow.folder_path).contains
          r.folder_path) ↔
      r ∈ (sortBy recDescLe l).take 5 := by
  have hsub : ∀ x ∈ (sortBy recDescLe l).take 5, x ∈ l := fun x hx =>
    (sortBy_perm recDescLe l).mem_iff.mp (List.take_subset _ _ hx)
  rw [List.mem_filter]
  constructor
  · rintro ⟨hrl, hc⟩
    have : r.folder_path ∈ ((sortBy recDescLe l).take 5).map RecRow.folder_path :=
      List.elem_iff.mp hc
    rcases List.mem_map.mp this with ⟨x, hx, hxp⟩
    have : x = r :=
      List.inj_on_of_nodup_map hk (hsub x hx) hrl hxp
    rw [← this]
    exact hx
  · intro hrs
    refine ⟨hsub r hrs, List.elem_iff.mpr ?_⟩
    exact List.mem_map.mpr ⟨r, hrs, rfl⟩

theorem keep_perm (l : List RecRow) (hk : (l.map RecRow.folder_path).Nodup) :
    List.Perm
      (l.filter fun r =>
        (((sortBy recDescLe l).take 5).map RecRow.folder_path).contains
          r.folder_path)
      ((sortBy recDescLe l).take 5) := by
  have hl : l.Nodup := List.Nodup.of_map _ hk
  refine (List.perm_ext_iff_of_nodup (List.Nodup.filter _ hl) ?_).mpr
    (fun r => keep_iff l hk r)
  exact List.Sublist.nodup (List.take_sublist _ _)
    ((sortBy_perm recDescLe l).nodup_iff.mpr hl)

theorem add_recent_folder_recents (db : DB) (p : String) (t : Nat) :
    (add_recent_folder db p t).1.recents =
      (upsertRecent db p t).recents.filter fun r =>
        (((sortBy recDescLe (upsertRecent db p t).recents).take 5).map
          RecRow.folder_path).contains r.folder_path := rfl

theorem sortRec_sorted (l : List RecRow) :
    (sortBy recDescLe l).Pairwise (fun a b => recDescLe a b = true) :=
  sortBy_sorted recDescLe recDescLe_total recDescLe_trans l

/-- C8: after any call to `add_recent_folder` on a table with distinct paths,
distinct access times and a fresh timestamp, (1) at most five rows remain,
(2) exactly the five most recently accessed rows of the post-upsert table are
retained — the evicted rows are exactly those beyond the five most recent,
(3) the listing comes out most-recently-accessed first, and (4) adding a
sixth distinct folder to a full table evicts exactly the least recently
accessed row, leaving five. -/
theorem C8_recent_folder_cap (db : DB) (p : String) (t : Nat)
    (hpaths : (db.recents.map RecRow.folder_path).Nodup)
    (hacc : (db.recents.map RecRow.last_accessed).Nodup)
    (ht : ∀ r ∈ db.recents, r.last_accessed < t) :
    ((add_recent_folder db p t).1.recents.length ≤ 5) ∧
    (∀ r, r ∈ (add_recent_folder db p t).1.recents ↔
      r ∈ (sortBy recDescLe (upsertRecent db p t).recents).take 5) ∧
    ((get_recent_folders (add_recent_folder db p t).1 5).Pairwise
      (fun a b => b.last_accessed ≤ a.last_accessed)) ∧
    (p ∉ db.recents.map RecRow.folder_path → db.recents.length = 5 →
      (add_recent_folder db p t).1.recents.length = 5 ∧
      ∀ r₀ ∈ db.recents,
        (∀ r' ∈ db.recents, r₀.last_accessed ≤ r'.last_accessed) →
        r₀ ∉ (add_recent_folder db p t).1.recents) := by
  have hk := upsert_paths_nodup db p t hpaths
  have hperm := keep_perm (upsertRecent db p t).recents hk
  refine ⟨?_, ?_, ?_, ?_⟩
  · rw [add_recent_folder_recents, hperm.length_eq]
    exact (List.length_take_le _ _)
  · intro r
    rw [add_recent_folder_recents]
    exact keep_iff _ hk r
  · rw [get_recent_folders]
    refine List.Pairwise.imp (fun h => of_decide_eq_true h) ?_
    exact (sortRec_sorted _).sublist (List.take_sublist _ _)
  · intro hpnew hlen5
    have htbl : (upsertRecent db p t).recents =
        db.recents ++ [⟨db.nextFolderId, p, t⟩] := by
      rcases upsert_paths db p t with h | ⟨-, h⟩
      · exfalso
        apply hpnew
        rw [← h]
        rw [upsertRecent]
        split
        · rename_i hany
          rcases List.any_eq_true.mp hany with ⟨r, hr, hrp⟩
          rw [List.map_map]
          refine List.mem_map.mpr ⟨r, hr, ?_⟩
          simp only [Function.comp_apply]
          split <;> simpa using hrp
        · simp
      · exact h
    have htbl_len : (upsertRecent db p t).recents.length = 6 := by
      rw [htbl]
      simp [hlen5]
    have haccs : ((upsertRecent db p t).recents.map RecRow.last_accessed).Nodup := by
      rw [htbl]
      simp only [List.map_append, List.map_cons, List.map_nil]
      rw [List.nodup_append]
      refine ⟨hacc, List.nodup_singleton _, ?_⟩
      intro a ha hb
      rcases List.mem_map.mp ha with ⟨r, hr, hra⟩
      have := ht r hr
      simp only [List.mem_singleton] at hb
      omega
    have htblnodup : (upsertRecent db p t).recents.Nodup :=
      List.Nodup.of_map _ haccs
    constructor
    · rw [add_recent_folder_recents, hperm.length_eq, List.length_take,
        (sortBy_perm recDescLe _).length_eq, htbl_len]
      decide
    · intro r₀ hr₀ hmin hmem
      have hmem5 : r₀ ∈ (sortBy recDescLe (upsertRecent db p t).recents).take 5 := by
        rw [add_recent_folder_recents] at hmem
        exact (keep_iff _ hk r₀).mp hmem
      have hLperm := sortBy_perm recDescLe (upsertRecent db p t).recents
      have hLlen : (sortBy recDescLe (upsertRecent db p t).recents).length = 6 := by
        rw [hLperm.length_eq, htbl_len]
      have hdrop : ((sortBy recDescLe (upsertRecent db p t).recents).drop 5).length = 1 := by
        rw [List.length_drop, hLlen]
      rcases List.length_eq_one.mp hdrop with ⟨x, hx⟩
      have hxmem : x ∈ (upsertRecent db p t).recents := by
        apply hLperm.mem_iff.mp
        apply List.drop_subset 5
        rw [hx]
        exact List.mem_singleton_self x
      have hsplit : (sortBy recDescLe (upsertRecent db p t).recents).take 5 ++ [x] =
          sortBy recDescLe (upsertRecent db p t).recents := by
        rw [← hx]
        exact List.take_append_drop 5 _
      have hxle : x.last_accessed ≤ r₀.last_accessed := by
        have hs := sortRec_sorted (upsertRecent db p t).recents
        rw [← hsplit] at hs
        have := (List.pairwise_append.mp hs).2.2 r₀ hmem5 x
          (List.mem_singleton_self x)
        exact of_decide_eq_true this
      have hr₀min : ∀ r' ∈ (upsertRecent db p t).recents,
          r₀.last_accessed ≤ r'.last_accessed := by
        intro r' hr'
        rw [htbl] at hr'
        rcases List.mem_append.mp hr' with h | h
        · exact hmin r' h
        · simp only [List.mem_singleton] at h
          subst h
          exact Nat.le_of_lt (ht r₀ hr₀)
      have hr₀tbl : r₀ ∈ (upsertRecent db p t).recents := by
        rw [htbl]
        exact List.mem_append_left _ hr₀
      have hxeq : x = r₀ := by
        apply List.inj_on_of_nodup_map haccs hxmem hr₀tbl
        exact Nat.le_antisymm hxle (hr₀min x hxmem)
      have hLnodup : (sortBy recDescLe (upsertRecent db p t).recents).Nodup :=
        hLperm.nodup_iff.mpr htblnodup
      rw [← hsplit] at hLnodup
      rcases List.nodup_append.mp hLnodup with ⟨-, -, hdisj⟩
      exact hdisj hmem5 (by rw [← hxeq]; exact List.mem_singleton_self x)

/-- Witness: `C8_recent_folder_cap` applied to five folders plus a sixth. -/
theorem C8_recent_folder_cap_witness :
    ((add_recent_folder exDbRec "f6" 10).1.recents.length ≤ 5) ∧
    ((add_recent_folder exDbRec "f6" 10).1.recents.length = 5) ∧
    (⟨1, "f1", 1⟩ : RecRow) ∉ (add_recent_folder exDbRec "f6" 10).1.recents := by
  have h := C8_recent_folder_cap exDbRec "f6" 10 (by decide) (by decide)
    (by decide)
  have h4 := h.2.2.2 (by decide) (by decide)
  exact ⟨h.1, h4.1, h4.2 ⟨1, "f1", 1⟩ (by decide) (by decide)⟩
